import Mathlib

/-!
Verification of the fxfsp XFS scanner against its specification.

The Rust sources are shallowly embedded: byte buffers are lists of naturals
(each byte `< 256` on real images), machine integers are naturals with
explicit `% 2^32` / `% 2^64` truncation at the points where Rust performs a
cast or can wrap, and Rust release-mode shift semantics (the shift amount is
masked by the bit width) are made explicit.  Fallible parsing returns
`Except FxfspError`.  Rust panics (out-of-bounds slice index, division by
zero) are modelled by the dedicated `FxfspError.PanicOOB` outcome so that
they stay distinguishable from ordinary scanner errors.
-/

namespace Fxfsp

/-- Byte buffer: a list of naturals, each below 256 on well-formed input. -/
abbrev Buf := List Nat

/-- Read the byte at index `i`; all call sites in the embedded code are
guarded by the same length checks the Rust source performs, except where a
Rust panic is modelled explicitly. -/
def byteAt (buf : Buf) (i : Nat) : Nat := buf.getD i 0

/-- Big-endian value of a byte list (zerocopy big-endian field access). -/
def beNat : Buf → Nat
  | [] => 0
  | b :: bs => b * 2 ^ (8 * bs.length) + beNat bs

/-- Big-endian field of `n` bytes at offset `off` in `buf`. -/
def be (buf : Buf) (off n : Nat) : Nat := beNat ((buf.drop off).take n)

/-- Truncating cast to u32 (`as u32` in Rust). -/
def toU32 (x : Nat) : Nat := x % 2 ^ 32

/-- Truncating cast to u64 (`as u64` in Rust / wrapping arithmetic). -/
def toU64 (x : Nat) : Nat := x % 2 ^ 64

/-- Rust u64 left shift, release semantics: the shift amount is masked by 64
and the result wraps modulo 2^64. -/
def shl64 (x s : Nat) : Nat := (x <<< (s % 64)) % 2 ^ 64

/-- Rust u64 right shift, release semantics: the shift amount is masked. -/
def shr64 (x s : Nat) : Nat := (x % 2 ^ 64) >>> (s % 64)

/-- Error taxonomy of `error.rs`, plus `PanicOOB`, which models a Rust panic
(slice index out of range, division by zero); a panic is not an
`FxfspError` value in the source, it aborts the process. -/
inductive FxfspError
  | Io
  | BadMagic (region : String)
  | Parse (msg : String)
  | CrcMismatch (region : String)
  | Stopped
  | PanicOOB
deriving DecidableEq

/-- Format version from `superblock.rs`. -/
inductive FormatVersion
  | V4
  | V5
deriving DecidableEq, BEq

/-- Filesystem context extracted from the superblock (`superblock.rs`).
Fields hold the natural values of the corresponding Rust integers. -/
structure FsContext where
  version : FormatVersion
  block_size : Nat
  block_log : Nat
  ag_count : Nat
  ag_blocks : Nat
  ag_blk_log : Nat
  inode_size : Nat
  inodes_per_block : Nat
  inode_log : Nat
  inop_blog : Nat
  dir_blk_log : Nat
  root_ino : Nat
  sect_size : Nat
  has_ftype : Bool
  has_nrext64 : Bool
deriving DecidableEq

/-- Superblock magic "XFSB". -/
def XFS_SB_MAGIC : Nat := 0x58465342

/-- Parse the superblock and build an `FsContext`
(`FsContext::from_superblock`).  The `XfsDsb` layout is 208 bytes, which is
what `ref_from` of the struct checks; `sb_features_incompat` is read raw at
byte offset 216. -/
def FsContext.from_superblock (buf : Buf) : Except FxfspError FsContext :=
  if buf.length < 208 then .error (.Parse "buffer too small for superblock")
  else if be buf 0 4 ≠ XFS_SB_MAGIC then .error (.BadMagic "superblock")
  else
    let versionnum := be buf 100 2
    let version := if versionnum &&& 0x000f ≥ 5 then FormatVersion.V5 else FormatVersion.V4
    let features2 := be buf 200 4
    let has_ftype_v4 := features2 &&& 0x0200 ≠ 0
    let has_ftype := version = FormatVersion.V5 ∨ has_ftype_v4
    let has_nrext64 :=
      version = FormatVersion.V5 ∧ 220 ≤ buf.length ∧ (be buf 216 4) &&& 0x20 ≠ 0
    .ok {
      version := version
      block_size := be buf 4 4
      block_log := byteAt buf 120
      ag_count := be buf 88 4
      ag_blocks := be buf 84 4
      ag_blk_log := byteAt buf 124
      inode_size := be buf 104 2
      inodes_per_block := be buf 106 2
      inode_log := byteAt buf 122
      inop_blog := byteAt buf 123
      dir_blk_log := byteAt buf 192
      root_ino := be buf 56 8
      sect_size := be buf 102 2
      has_ftype := decide (has_ftype)
      has_nrext64 := decide (has_nrext64) }

/-- Convert an absolute inode number to its AG number
(`FsContext::ino_to_agno`); the result is cast to u32. -/
def FsContext.ino_to_agno (ctx : FsContext) (ino : Nat) : Nat :=
  toU32 (shr64 ino (ctx.inop_blog + ctx.ag_blk_log))

/-- Convert an absolute inode number to its AG-relative inode
(`FsContext::ino_to_agino`). -/
def FsContext.ino_to_agino (ctx : FsContext) (ino : Nat) : Nat :=
  let mask := shl64 1 (ctx.inop_blog + ctx.ag_blk_log) - 1
  toU32 ((ino % 2 ^ 64) &&& mask)

/-- Convert an AG-relative inode to an absolute inode number
(`FsContext::agino_to_ino`); `agno` and `agino` are u32 in the source, the
`% 2^32` records that typing. -/
def FsContext.agino_to_ino (ctx : FsContext) (agno agino : Nat) : Nat :=
  shl64 (agno % 2 ^ 32) (ctx.inop_blog + ctx.ag_blk_log) ||| (agino % 2 ^ 32)

/-- Byte offset of an AG-relative block (`FsContext::ag_block_to_byte`). -/
def FsContext.ag_block_to_byte (ctx : FsContext) (agno agblock : Nat) : Nat :=
  let abs_block := (agno % 2 ^ 32) * (ctx.ag_blocks % 2 ^ 32) + (agblock % 2 ^ 32)
  shl64 abs_block ctx.block_log

/-- Byte offset of the start of an AG (`FsContext::ag_start_byte`). -/
def FsContext.ag_start_byte (ctx : FsContext) (agno : Nat) : Nat :=
  toU64 ((agno % 2 ^ 32) * (ctx.ag_blocks % 2 ^ 32) * (ctx.block_size % 2 ^ 32))

/-- Byte offset of the AGI header of an AG (`FsContext::agi_byte_offset`). -/
def FsContext.agi_byte_offset (ctx : FsContext) (agno : Nat) : Nat :=
  toU64 (ctx.ag_start_byte agno + 2 * (ctx.sect_size % 2 ^ 16))

/-- Number of filesystem blocks per directory block
(`FsContext::dir_blk_fsblocks`); u32 shift, release semantics. -/
def FsContext.dir_blk_fsblocks (ctx : FsContext) : Nat :=
  (1 <<< (ctx.dir_blk_log % 32)) % 2 ^ 32

/-- Directory block size in bytes (`FsContext::dir_blk_size`), u32 product. -/
def FsContext.dir_blk_size (ctx : FsContext) : Nat :=
  toU32 (ctx.block_size * ctx.dir_blk_fsblocks)

/-- Decompose an absolute filesystem block number into `(agno, agblock)`
(`fsblock_to_ag` in `extent.rs`); both components are cast to u32. -/
def fsblock_to_ag (ctx : FsContext) (fsblock : Nat) : Nat × Nat :=
  (toU32 (shr64 fsblock ctx.ag_blk_log),
   toU32 ((fsblock % 2 ^ 64) &&& (shl64 1 ctx.ag_blk_log - 1)))

/-- Byte offset of an absolute filesystem block (`fsblock_to_byte` in
`extent.rs`): unpack into AG components, then convert. -/
def fsblock_to_byte (ctx : FsContext) (fsblock : Nat) : Nat :=
  let p := fsblock_to_ag ctx fsblock
  ctx.ag_block_to_byte p.1 p.2

/-- Packing function as the specification words it for claim C4:
`pack(a, b) = (a << ag_blk_log) | b` on u64 values. -/
def specPack (ctx : FsContext) (a b : Nat) : Nat :=
  shl64 (a % 2 ^ 64) ctx.ag_blk_log ||| (b % 2 ^ 64)

/-- Arithmetic form of `fsblock_to_ag`: division and remainder by the
(masked) power of two. -/
theorem fsblock_to_ag_eq (ctx : FsContext) (fsblock : Nat) :
    fsblock_to_ag ctx fsblock =
      ((fsblock % 2 ^ 64) / 2 ^ (ctx.ag_blk_log % 64) % 2 ^ 32,
       (fsblock % 2 ^ 64) % 2 ^ (ctx.ag_blk_log % 64) % 2 ^ 32) := by
  have hl64 : ctx.ag_blk_log % 64 < 64 := Nat.mod_lt _ (by norm_num)
  have h2 : 2 ^ (ctx.ag_blk_log % 64) % 2 ^ 64 = 2 ^ (ctx.ag_blk_log % 64) :=
    Nat.mod_eq_of_lt (Nat.pow_lt_pow_right (by norm_num) hl64)
  unfold fsblock_to_ag toU32 shr64 shl64
  rw [Nat.shiftLeft_eq, Nat.one_mul, h2, Nat.and_pow_two_sub_one_eq_mod,
    Nat.shiftRight_eq_div_pow]

/-- Repacking the decomposed AG components of a fsblock and decomposing again
is the identity on the components. -/
theorem fsblock_to_ag_specPack (ctx : FsContext) (fsblock : Nat) :
    fsblock_to_ag ctx
        (specPack ctx (fsblock_to_ag ctx fsblock).1 (fsblock_to_ag ctx fsblock).2)
      = fsblock_to_ag ctx fsblock := by
  have hl64 : ctx.ag_blk_log % 64 < 64 := Nat.mod_lt _ (by norm_num)
  simp only [fsblock_to_ag_eq]
  set l := ctx.ag_blk_log % 64 with hldef
  set f := fsblock % 2 ^ 64 with hfdef
  have hm : 0 < 2 ^ l := Nat.two_pow_pos l
  have hflt : f < 2 ^ 64 := Nat.mod_lt _ (by norm_num)
  set A := f / 2 ^ l % 2 ^ 32 with hAdef
  set B := f % 2 ^ l % 2 ^ 32 with hBdef
  have hA32 : A < 2 ^ 32 := Nat.mod_lt _ (by norm_num)
  have hB32 : B < 2 ^ 32 := Nat.mod_lt _ (by norm_num)
  have hBm : B < 2 ^ l := lt_of_le_of_lt (Nat.mod_le _ _) (Nat.mod_lt _ hm)
  have hAm : A * 2 ^ l < 2 ^ 64 := by
    calc A * 2 ^ l ≤ f / 2 ^ l * 2 ^ l := Nat.mul_le_mul_right _ (Nat.mod_le _ _)
      _ ≤ f := Nat.div_mul_le_self f _
      _ < 2 ^ 64 := hflt
  have hApure : A + 1 ≤ 2 ^ (64 - l) := by
    by_contra hc
    push_neg at hc
    have h1 : 2 ^ (64 - l) * 2 ^ l ≤ A * 2 ^ l := Nat.mul_le_mul_right _ (by omega)
    rw [← Nat.pow_add] at h1
    have h64 : 64 - l + l = 64 := by omega
    rw [h64] at h1
    omega
  have hpack_lt : A * 2 ^ l + B < 2 ^ 64 := by
    have h1 : (A + 1) * 2 ^ l ≤ 2 ^ (64 - l) * 2 ^ l := Nat.mul_le_mul_right _ hApure
    rw [← Nat.pow_add] at h1
    have h64 : 64 - l + l = 64 := by omega
    rw [h64] at h1
    calc A * 2 ^ l + B < A * 2 ^ l + 2 ^ l := by omega
      _ = (A + 1) * 2 ^ l := by ring
      _ ≤ 2 ^ 64 := h1
  have hspec : specPack ctx A B = A * 2 ^ l + B := by
    unfold specPack shl64
    rw [Nat.mod_eq_of_lt (lt_trans hA32 (by norm_num)),
      Nat.mod_eq_of_lt (lt_trans hB32 (by norm_num)),
      Nat.shiftLeft_eq, ← hldef, Nat.mod_eq_of_lt hAm, Nat.mul_comm A (2 ^ l),
      ← Nat.mul_add_lt_is_or hBm A, Nat.mul_comm (2 ^ l) A]
  rw [hspec, Nat.mod_eq_of_lt hpack_lt]
  have hdiv : (A * 2 ^ l + B) / 2 ^ l = A := by
    rw [Nat.mul_comm A (2 ^ l), Nat.mul_add_div hm, Nat.div_eq_of_lt hBm,
      Nat.add_zero]
  have hmod : (A * 2 ^ l + B) % 2 ^ l = B := by
    rw [Nat.mul_comm A (2 ^ l), Nat.mul_add_mod, Nat.mod_eq_of_lt hBm]
  rw [hdiv, hmod, Nat.mod_eq_of_lt hA32, Nat.mod_eq_of_lt hB32]

/-- C4: for every `FsContext` and every fsblock,
`fsblock_to_byte (pack (agno, agblock)) = ag_block_to_byte agno agblock`,
where `pack (a, b) = (a << ag_blk_log) | b` and `(agno, agblock)` are the
components the packed fsblock decomposes into; the unpack-first conversion is
correct for every fsblock, not only when `ag_blocks` is a power of two. -/
theorem fsblock_unpack_correct (ctx : FsContext) (fsblock : Nat) :
    fsblock_to_byte ctx
        (specPack ctx (fsblock_to_ag ctx fsblock).1 (fsblock_to_ag ctx fsblock).2)
      = ctx.ag_block_to_byte (fsblock_to_ag ctx fsblock).1 (fsblock_to_ag ctx fsblock).2 := by
  unfold fsblock_to_byte
  rw [fsblock_to_ag_specPack]

/-- Division and remainder recover the summands of `a * 2 ^ s + i`. -/
theorem split_packed (s a i : Nat) (hi : i < 2 ^ s) :
    (a * 2 ^ s + i) / 2 ^ s = a ∧ (a * 2 ^ s + i) % 2 ^ s = i := by
  constructor
  · rw [Nat.mul_comm a (2 ^ s), Nat.mul_add_div (Nat.two_pow_pos s),
      Nat.div_eq_of_lt hi, Nat.add_zero]
  · rw [Nat.mul_comm a (2 ^ s), Nat.mul_add_mod, Nat.mod_eq_of_lt hi]

/-- C3 (amended): for every `FsContext` whose combined inode shift
`inop_blog + ag_blk_log` is below 64, every AG number `a` in
`[0, ag_count)` (a u32), and every AG-relative inode `i` (a u32) that fits
in the low `inop_blog + ag_blk_log` bits with `a · 2^(inop_blog+ag_blk_log)`
not overflowing u64, the conversions round-trip:
`ino_to_agno (agino_to_ino a i) = a` and
`ino_to_agino (agino_to_ino a i) = i`. -/
theorem ino_conversion_roundtrip (ctx : FsContext) (a i : Nat)
    (hs : ctx.inop_blog + ctx.ag_blk_log < 64)
    (ha32 : a < 2 ^ 32) (hi32 : i < 2 ^ 32)
    (hi : i < 2 ^ (ctx.inop_blog + ctx.ag_blk_log))
    (hov : a * 2 ^ (ctx.inop_blog + ctx.ag_blk_log) < 2 ^ 64)
    (ha : a < ctx.ag_count) :
    ctx.ino_to_agno (ctx.agino_to_ino a i) = a ∧
      ctx.ino_to_agino (ctx.agino_to_ino a i) = i := by
  set s := ctx.inop_blog + ctx.ag_blk_log with hsdef
  have hsm : s % 64 = s := Nat.mod_eq_of_lt hs
  have hpow : 2 ^ s < 2 ^ 64 := Nat.pow_lt_pow_right (by norm_num) hs
  have hino : ctx.agino_to_ino a i = a * 2 ^ s + i := by
    unfold FsContext.agino_to_ino shl64
    rw [← hsdef, hsm, Nat.mod_eq_of_lt ha32, Nat.mod_eq_of_lt hi32,
      Nat.shiftLeft_eq, Nat.mod_eq_of_lt hov, Nat.mul_comm a (2 ^ s),
      ← Nat.mul_add_lt_is_or hi a, Nat.mul_comm (2 ^ s) a]
  have hsplit := split_packed s a i hi
  have hpack_lt : a * 2 ^ s + i < 2 ^ 64 := by
    have h1 : a + 1 ≤ 2 ^ (64 - s) := by
      by_contra hc
      push_neg at hc
      have h2 : 2 ^ (64 - s) * 2 ^ s ≤ a * 2 ^ s := Nat.mul_le_mul_right _ (by omega)
      rw [← Nat.pow_add] at h2
      have h64 : 64 - s + s = 64 := by omega
      rw [h64] at h2
      omega
    have h3 : (a + 1) * 2 ^ s ≤ 2 ^ (64 - s) * 2 ^ s := Nat.mul_le_mul_right _ h1
    rw [← Nat.pow_add] at h3
    have h64 : 64 - s + s = 64 := by omega
    rw [h64] at h3
    calc a * 2 ^ s + i < a * 2 ^ s + 2 ^ s := by omega
      _ = (a + 1) * 2 ^ s := by ring
      _ ≤ 2 ^ 64 := h3
  constructor
  · unfold FsContext.ino_to_agno shr64 toU32
    rw [hino, ← hsdef, hsm, Nat.mod_eq_of_lt hpack_lt, Nat.shiftRight_eq_div_pow,
      hsplit.1, Nat.mod_eq_of_lt ha32]
  · unfold FsContext.ino_to_agino shl64 toU32
    rw [hino, ← hsdef, hsm, Nat.shiftLeft_eq, Nat.one_mul,
      Nat.mod_eq_of_lt hpow, Nat.mod_eq_of_lt hpack_lt]
    show ((a * 2 ^ s + i) &&& (2 ^ s - 1)) % 2 ^ 32 = i
    rw [Nat.and_pow_two_sub_one_eq_mod, hsplit.2, Nat.mod_eq_of_lt hi32]

/-- Degenerate but reachable context used to refute claim C3 as stated:
`from_superblock` performs no validation of the geometry fields, so a
crafted superblock can produce `inop_blog = ag_blk_log = 0`. -/
def ctxDegenerate : FsContext :=
  { version := .V4, block_size := 4096, block_log := 12, ag_count := 4,
    ag_blocks := 16, ag_blk_log := 0, inode_size := 256,
    inodes_per_block := 16, inode_log := 8, inop_blog := 0, dir_blk_log := 0,
    root_ino := 64, sect_size := 512, has_ftype := false, has_nrext64 := false }

/-- C3 counterexample: with `inop_blog = ag_blk_log = 0` and AG number 2
(inside `[0, ag_count)`) and AG-relative inode 1, the round-trip fails:
`agino_to_ino 2 1 = 3` and `ino_to_agno 3 = 3 ≠ 2`. -/
theorem ino_conversion_counterexample :
    2 < ctxDegenerate.ag_count ∧
      ¬ (ctxDegenerate.ino_to_agno (ctxDegenerate.agino_to_ino 2 1) = 2 ∧
         ctxDegenerate.ino_to_agino (ctxDegenerate.agino_to_ino 2 1) = 1) := by
  decide

/-- Realistic context witnessing the amended claim C3. -/
def ctxRealistic : FsContext :=
  { version := .V5, block_size := 4096, block_log := 12, ag_count := 4,
    ag_blocks := 1048576, ag_blk_log := 20, inode_size := 512,
    inodes_per_block := 8, inode_log := 9, inop_blog := 3, dir_blk_log := 0,
    root_ino := 128, sect_size := 512, has_ftype := true, has_nrext64 := false }

/-- Witness for the amended claim C3 at a concrete realistic context. -/
theorem ino_conversion_roundtrip_witness :
    ctxRealistic.ino_to_agno (ctxRealistic.agino_to_ino 1 5) = 1 ∧
      ctxRealistic.ino_to_agino (ctxRealistic.agino_to_ino 1 5) = 5 :=
  ino_conversion_roundtrip ctxRealistic 1 5 (by decide) (by decide) (by decide)
    (by decide) (by decide) (by decide)

/-- Unpacked extent with decomposed AG information (`Extent` in
`extent.rs`). -/
structure Extent where
  logical_offset : Nat
  ag_number : Nat
  ag_block : Nat
  block_count : Nat
  is_unwritten : Bool
deriving DecidableEq

/-- Unpack a 16-byte packed big-endian extent record
(`XfsBmbtRec::unpack_with_context`).  `recBytes` holds the 16 bytes; `l0`
and `l1` are its two big-endian u64 words.  All shift amounts are constants
below 64 and no intermediate overflows u64, so plain natural operations
coincide with the Rust u64 operations here. -/
def unpack_with_context (ctx : FsContext) (recBytes : Buf) : Extent :=
  let l0 := be recBytes 0 8
  let l1 := be recBytes 8 8
  let is_unwritten := l0 >>> 63 ≠ 0
  let logical_offset := (l0 >>> 9) &&& 0x003FFFFFFFFFFFFF
  let fsblock := ((l0 &&& 0x1FF) <<< 43) ||| (l1 >>> 21)
  let block_count := l1 &&& 0x001FFFFF
  let p := fsblock_to_ag ctx fsblock
  { logical_offset := logical_offset, ag_number := p.1, ag_block := p.2,
    block_count := block_count, is_unwritten := decide is_unwritten }

/-- Starting byte offset of an extent on disk (`Extent::start_byte`). -/
def Extent.start_byte (e : Extent) (ctx : FsContext) : Nat :=
  ctx.ag_block_to_byte e.ag_number e.ag_block

/-- Loop of `parse_extent_list`: records `i, i+1, ...` while `n` records
remain.  The record-parse failure branch of the source is unreachable here
because the preceding length check already guarantees 16 bytes. -/
def parse_extent_list_from (ctx : FsContext) (fork_buf : Buf) :
    Nat → Nat → Except FxfspError (List Extent)
  | _, 0 => .ok []
  | i, n + 1 =>
    let start := i * 16
    if start + 16 > fork_buf.length then .error (.Parse "extent record out of bounds")
    else
      match parse_extent_list_from ctx fork_buf (i + 1) n with
      | .ok rest => .ok (unpack_with_context ctx ((fork_buf.drop start).take 16) :: rest)
      | .error e => .error e

/-- Extract the inline extent list from a data fork (`parse_extent_list` in
`extent.rs`). -/
def parse_extent_list (fork_buf : Buf) (nextents : Nat) (ctx : FsContext) :
    Except FxfspError (List Extent) :=
  parse_extent_list_from ctx fork_buf 0 nextents

/-- Big-endian value of a byte list is bounded by the list width. -/
theorem beNat_lt (bs : Buf) (hb : ∀ b ∈ bs, b < 256) :
    beNat bs < 2 ^ (8 * bs.length) := by
  induction bs with
  | nil => simp [beNat]
  | cons x xs ih =>
    have hx : x < 256 := hb x (List.mem_cons_self _ _)
    have hxs := ih (fun b hbm => hb b (List.mem_cons_of_mem _ hbm))
    simp only [beNat, List.length_cons]
    have h1 : 8 * (xs.length + 1) = 8 * xs.length + 8 := by ring
    rw [h1, Nat.pow_add]
    calc x * 2 ^ (8 * xs.length) + beNat xs
        < x * 2 ^ (8 * xs.length) + 2 ^ (8 * xs.length) := by omega
      _ = (x + 1) * 2 ^ (8 * xs.length) := by ring
      _ ≤ 256 * 2 ^ (8 * xs.length) := Nat.mul_le_mul_right _ (by omega)
      _ = 2 ^ (8 * xs.length) * 2 ^ 8 := by ring
      _ ≤ 2 ^ (8 * xs.length) * 2 ^ 8 := le_refl _

/-- Big-endian value of a concatenation. -/
theorem beNat_append (xs ys : Buf) :
    beNat (xs ++ ys) = beNat xs * 2 ^ (8 * ys.length) + beNat ys := by
  induction xs with
  | nil => simp [beNat]
  | cons x xs ih =>
    simp only [List.cons_append, beNat, List.append_eq, List.length_append, ih]
    rw [show 8 * (xs.length + ys.length) = 8 * xs.length + 8 * ys.length by ring,
      Nat.pow_add]
    ring

/-- Arithmetic decomposition of a 128-bit big-endian value into its two
64-bit words, at the bit positions of the extent record layout. -/
theorem split128 (H L : Nat) (hH : H < 2 ^ 64) (hL : L < 2 ^ 64) :
    (H * 2 ^ 64 + L) / 2 ^ 127 = H / 2 ^ 63 ∧
      (H * 2 ^ 64 + L) / 2 ^ 73 % 2 ^ 54 = H / 2 ^ 9 % 2 ^ 54 ∧
      (H * 2 ^ 64 + L) / 2 ^ 21 % 2 ^ 52 = H % 2 ^ 9 * 2 ^ 43 + L / 2 ^ 21 ∧
      (H * 2 ^ 64 + L) % 2 ^ 21 = L % 2 ^ 21 := by
  refine ⟨?_, ?_, ?_, ?_⟩ <;> omega

/-- C5: for every 16-byte packed big-endian extent record (bytes below 256),
the decoder returns `is_unwritten` equal to bit 127, `logical_offset` equal
to bits 126..73 (54 bits), a starting filesystem block equal to bits 72..21
(52 bits, decomposed into `ag_number` and `ag_block` by `fsblock_to_ag`
using `ag_blk_log`), and `block_count` equal to bits 20..0 (21 bits). -/
theorem extent_decode_bits (ctx : FsContext) (recBytes : Buf)
    (hlen : recBytes.length = 16) (hbytes : ∀ b ∈ recBytes, b < 256) :
    (unpack_with_context ctx recBytes).is_unwritten = (beNat recBytes).testBit 127 ∧
      (unpack_with_context ctx recBytes).logical_offset
        = beNat recBytes / 2 ^ 73 % 2 ^ 54 ∧
      (unpack_with_context ctx recBytes).ag_number
        = (fsblock_to_ag ctx (beNat recBytes / 2 ^ 21 % 2 ^ 52)).1 ∧
      (unpack_with_context ctx recBytes).ag_block
        = (fsblock_to_ag ctx (beNat recBytes / 2 ^ 21 % 2 ^ 52)).2 ∧
      (unpack_with_context ctx recBytes).block_count = beNat recBytes % 2 ^ 21 := by
  have hlt : (recBytes.take 8).length = 8 := by
    rw [List.length_take]; omega
  have hld : (recBytes.drop 8).length = 8 := by
    rw [List.length_drop]; omega
  have hH : beNat (recBytes.take 8) < 2 ^ 64 := by
    have h := beNat_lt (recBytes.take 8)
      (fun b hbm => hbytes b (List.take_subset _ _ hbm))
    rw [hlt] at h
    exact h
  have hL : beNat (recBytes.drop 8) < 2 ^ 64 := by
    have h := beNat_lt (recBytes.drop 8)
      (fun b hbm => hbytes b (List.drop_subset _ _ hbm))
    rw [hld] at h
    exact h
  set H := beNat (recBytes.take 8) with hHdef
  set L := beNat (recBytes.drop 8) with hLdef
  have hN : beNat recBytes = H * 2 ^ 64 + L := by
    conv_lhs => rw [← List.take_append_drop 8 recBytes]
    rw [beNat_append, hld]
  have hbe0 : be recBytes 0 8 = H := by
    simp [be, hHdef]
  have hbe8 : be recBytes 8 8 = L := by
    rw [be, List.take_of_length_le (le_of_eq hld), hLdef]
  have hs := split128 H L hH hL
  have hLdiv : L / 2 ^ 21 < 2 ^ 43 := by omega
  have hfsb : ((be recBytes 0 8 &&& 0x1FF) <<< 43) ||| (be recBytes 8 8 >>> 21)
      = beNat recBytes / 2 ^ 21 % 2 ^ 52 := by
    rw [hbe0, hbe8, hN, hs.2.2.1,
      show (0x1FF : Nat) = 2 ^ 9 - 1 by norm_num,
      Nat.and_pow_two_sub_one_eq_mod, Nat.shiftLeft_eq,
      Nat.shiftRight_eq_div_pow, Nat.mul_comm (H % 2 ^ 9) (2 ^ 43),
      ← Nat.mul_add_lt_is_or hLdiv (H % 2 ^ 9), Nat.mul_comm (2 ^ 43) (H % 2 ^ 9)]
  refine ⟨?_, ?_, ?_, ?_, ?_⟩
  · show decide (be recBytes 0 8 >>> 63 ≠ 0) = (beNat recBytes).testBit 127
    rw [Nat.testBit_to_div_mod, hbe0, hN, hs.1, Nat.shiftRight_eq_div_pow]
    have hb : H / 2 ^ 63 ≤ 1 := by omega
    rcases Nat.le_one_iff_eq_zero_or_eq_one.mp hb with h0 | h1
    · rw [h0]; simp
    · rw [h1]; simp
  · show (be recBytes 0 8 >>> 9) &&& 0x003FFFFFFFFFFFFF
        = beNat recBytes / 2 ^ 73 % 2 ^ 54
    rw [hbe0, hN, hs.2.1, Nat.shiftRight_eq_div_pow,
      show (0x003FFFFFFFFFFFFF : Nat) = 2 ^ 54 - 1 by norm_num,
      Nat.and_pow_two_sub_one_eq_mod]
  · show (fsblock_to_ag ctx (((be recBytes 0 8 &&& 0x1FF) <<< 43)
        ||| (be recBytes 8 8 >>> 21))).1
        = (fsblock_to_ag ctx (beNat recBytes / 2 ^ 21 % 2 ^ 52)).1
    rw [hfsb]
  · show (fsblock_to_ag ctx (((be recBytes 0 8 &&& 0x1FF) <<< 43)
        ||| (be recBytes 8 8 >>> 21))).2
        = (fsblock_to_ag ctx (beNat recBytes / 2 ^ 21 % 2 ^ 52)).2
    rw [hfsb]
  · show be recBytes 8 8 &&& 0x001FFFFF = beNat recBytes % 2 ^ 21
    rw [hbe8, hN, hs.2.2.2,
      show (0x001FFFFF : Nat) = 2 ^ 21 - 1 by norm_num,
      Nat.and_pow_two_sub_one_eq_mod]

/-- Concrete 16-byte record witnessing claim C5: logical offset 3, start
block `2^20 + 7`, block count 5, unwritten flag set. -/
def recWitness : Buf :=
  let n : Nat := 2 ^ 127 + 3 * 2 ^ 73 + (2 ^ 20 + 7) * 2 ^ 21 + 5
  (List.range 16).map (fun i => n / 2 ^ (8 * (15 - i)) % 256)

/-- Witness for claim C5 at a concrete record and context. -/
theorem extent_decode_bits_witness :
    (unpack_with_context ctxRealistic recWitness).is_unwritten
        = (beNat recWitness).testBit 127 ∧
      (unpack_with_context ctxRealistic recWitness).logical_offset
        = beNat recWitness / 2 ^ 73 % 2 ^ 54 ∧
      (unpack_with_context ctxRealistic recWitness).ag_number
        = (fsblock_to_ag ctxRealistic (beNat recWitness / 2 ^ 21 % 2 ^ 52)).1 ∧
      (unpack_with_context ctxRealistic recWitness).ag_block
        = (fsblock_to_ag ctxRealistic (beNat recWitness / 2 ^ 21 % 2 ^ 52)).2 ∧
      (unpack_with_context ctxRealistic recWitness).block_count
        = beNat recWitness % 2 ^ 21 :=
  extent_decode_bits ctxRealistic recWitness (by decide) (by decide)

/-- Parsed inode core information (`InodeInfo` in `inode.rs`). -/
structure InodeInfo where
  ino : Nat
  mode : Nat
  format : Nat
  size : Nat
  uid : Nat
  gid : Nat
  nlink : Nat
  nextents : Nat
  mtime_sec : Nat
  mtime_nsec : Nat
  atime_sec : Nat
  atime_nsec : Nat
  ctime_sec : Nat
  ctime_nsec : Nat
  nblocks : Nat
  data_fork_offset : Nat
deriving DecidableEq

/-- Inode data fork format codes (`inode.rs`). -/
def XFS_DINODE_FMT_LOCAL : Nat := 1

/-- Extents format code. -/
def XFS_DINODE_FMT_EXTENTS : Nat := 2

/-- Btree format code. -/
def XFS_DINODE_FMT_BTREE : Nat := 3

/-- Directory check (`InodeInfo::is_dir`): `mode & 0o170000 == 0o040000`. -/
def InodeInfo.is_dir (i : InodeInfo) : Bool := i.mode &&& 0o170000 == 0o040000

/-- Regular-file check (`InodeInfo::is_regular`). -/
def InodeInfo.is_regular (i : InodeInfo) : Bool := i.mode &&& 0o170000 == 0o100000

/-- Parse a dinode core (`parse_inode_core` in `inode.rs`).  The `XfsDinodeCore`
layout is 96 bytes; with NREXT64 the data-fork extent count is the low 48
bits of the big-endian u64 at byte offset 24, cast to u32 by the source. -/
def parse_inode_core (buf : Buf) (ino : Nat) (is_v5 has_nrext64 : Bool) :
    Except FxfspError InodeInfo :=
  if buf.length < 96 then .error (.Parse "buffer too small for dinode core")
  else if be buf 0 2 ≠ 0x494e then .error (.BadMagic "dinode")
  else if has_nrext64 ∧ buf.length < 32 then
    .error (.Parse "buffer too small for nrext64 extent count")
  else
    let nextents :=
      if has_nrext64 then toU32 (be buf 24 8 &&& 0x0000FFFFFFFFFFFF)
      else be buf 76 4
    .ok { ino := ino, mode := be buf 2 2, format := byteAt buf 5,
          size := be buf 56 8, uid := be buf 8 4, gid := be buf 12 4,
          nlink := be buf 16 4, nextents := nextents,
          mtime_sec := be buf 40 4, mtime_nsec := be buf 44 4,
          atime_sec := be buf 32 4, atime_nsec := be buf 36 4,
          ctime_sec := be buf 48 4, ctime_nsec := be buf 52 4,
          nblocks := be buf 64 8,
          data_fork_offset := if is_v5 then 176 else 96 }

/-- Inode buffer for the C7 failing input: valid magic, and the NREXT64
64-bit word at byte offset 24 equal to `2^32`, a 48-bit value whose low 32
bits are zero. -/
def nrext64Buf : Buf :=
  [0x49, 0x4e] ++ List.replicate 22 0 ++ [0, 0, 0, 1, 0, 0, 0, 0]
    ++ List.replicate 64 0

/-- C7: at the failing input the code returns extent count 0 although the
low 48 bits of the big-endian word at byte offset 24 equal `2^32`; the
`as u32` cast truncates the 48-bit field to its low 32 bits. -/
theorem nrext64_truncated :
    (parse_inode_core nrext64Buf 0 true true).toOption.map (fun i => i.nextents)
        = some 0 ∧
      be nrext64Buf 24 8 &&& 0x0000FFFFFFFFFFFF = 2 ^ 32 := by decide

deriving instance DecidableEq for Except

/-- Events emitted during a scan (`FsEvent` in `lib.rs`, restricted to the
fields the `scan.rs` iteration constructs; `name` is the borrowed byte
slice). -/
inductive FsEvent
  | Superblock (block_size ag_count inode_size root_ino : Nat)
  | InodeFound (ag_number ino mode size uid gid nlink mtime_sec mtime_nsec
      atime_sec atime_nsec ctime_sec ctime_nsec nblocks : Nat)
  | FileExtents (ino : Nat) (extents : List Extent)
  | DirEntry (parent_ino child_ino : Nat) (name : Buf) (file_type : Nat)
deriving DecidableEq

/-- Entry loop of `parse_shortform_dir` (`dir/shortform.rs`): parse `n`
remaining entries starting at `offset`.  Returns the `DirEntry` events
emitted, in order, and the outcome.  The `.error .PanicOOB` outcome models
the Rust index panic at the unguarded file-type byte read
`fork_buf[name_end]`, which is out of bounds exactly when `name_end`
equals the buffer length (the preceding check only rejects `name_end`
strictly greater). -/
def sfLoop (ctx : FsContext) (fork_buf : Buf) (parent_ino : Nat)
    (use_8byte : Bool) : Nat → Nat → List FsEvent × Except FxfspError Unit
  | _, 0 => ([], .ok ())
  | offset, n + 1 =>
    if offset ≥ fork_buf.length then
      ([], .error (.Parse "shortform entry past end"))
    else
      let namelen := byteAt fork_buf offset
      let name_start := offset + 1 + 2
      let name_end := name_start + namelen
      if name_end > fork_buf.length then
        ([], .error (.Parse "shortform entry name out of bounds"))
      else
        let name := (fork_buf.drop name_start).take namelen
        if ctx.has_ftype ∧ name_end ≥ fork_buf.length then
          ([], .error .PanicOOB)
        else
          let ftype := if ctx.has_ftype then byteAt fork_buf name_end else 0
          let ftype_size := if ctx.has_ftype then 1 else 0
          let ino_start := name_end + ftype_size
          let ino_size := if use_8byte then 8 else 4
          if use_8byte ∧ ino_start + 8 > fork_buf.length then
            ([], .error (.Parse "shortform 8-byte ino out of bounds"))
          else if ¬ use_8byte ∧ ino_start + 4 > fork_buf.length then
            ([], .error (.Parse "shortform 4-byte ino out of bounds"))
          else
            let child_ino :=
              if use_8byte then be fork_buf ino_start 8 else be fork_buf ino_start 4
            let ev := FsEvent.DirEntry parent_ino child_ino name ftype
            let rest := sfLoop ctx fork_buf parent_ino use_8byte (ino_start + ino_size) n
            (ev :: rest.1, rest.2)

/-- Parse a shortform directory fork (`parse_shortform_dir` in
`dir/shortform.rs`), returning the emitted events in order and the outcome.
The 8-byte header needs 10 bytes (`XfsDirSfHdr8` has no padding); note the
source takes `i8count`, not `count`, as the number of entries in the
8-byte variant. -/
def parse_shortform_dir (fork_buf : Buf) (parent_ino : Nat) (ctx : FsContext) :
    List FsEvent × Except FxfspError Unit :=
  if fork_buf.length < 6 then ([], .error (.Parse "shortform dir too small"))
  else
    let i8count := byteAt fork_buf 1
    let use_8byte := decide (0 < i8count)
    if use_8byte ∧ fork_buf.length < 10 then
      ([], .error (.Parse "shortform hdr8 parse failed"))
    else
      let entry_count := if use_8byte then i8count else byteAt fork_buf 0
      let hdr_parent_ino := if use_8byte then be fork_buf 2 8 else be fork_buf 2 4
      let hdr_size := if use_8byte then 10 else 6
      let dot : FsEvent := .DirEntry parent_ino parent_ino [0x2e] 0
      let dotdot : FsEvent := .DirEntry parent_ino hdr_parent_ino [0x2e, 0x2e] 0
      let rest := sfLoop ctx fork_buf parent_ino use_8byte hdr_size entry_count
      (dot :: dotdot :: rest.1, rest.2)

/-- Shortform fork with `count = 2`, `i8count = 1` (8-byte variant), parent
inode 99 and two one-letter entries pointing at inodes 50 and 51; the C6
failing input. -/
def sfFork8 : Buf :=
  [2, 1, 0, 0, 0, 0, 0, 0, 0, 99,
   1, 0, 0, 97, 0, 0, 0, 0, 0, 0, 0, 50,
   1, 0, 0, 98, 0, 0, 0, 0, 0, 0, 0, 51]

/-- C6: on the failing input (8-byte header variant with `count = 2`,
`i8count = 1`) the decoder emits only three `DirEntry` events — the two
synthesized dot entries plus one on-disk entry — instead of the
`2 + count = 4` the claim requires, because the source uses `i8count` as
the entry count in the 8-byte variant. -/
theorem shortform_i8count_bug :
    parse_shortform_dir sfFork8 100 ctxDegenerate
        = ([.DirEntry 100 100 [0x2e] 0, .DirEntry 100 99 [0x2e, 0x2e] 0,
            .DirEntry 100 50 [97] 0], .ok ()) ∧
      byteAt sfFork8 0 = 2 := by decide

/-- Fork buffer for the C10 counterexample: 4-byte variant, one entry whose
name ends exactly at the buffer end, so the file-type read at `name_end`
indexes out of bounds when `has_ftype` is set. -/
def sfForkPanic : Buf := [1, 0, 0, 0, 0, 0, 1, 0, 0, 97]

/-- C10 counterexample: with `has_ftype = true` the parse of `sfForkPanic`
hits the out-of-bounds file-type byte read at index `name_end = length`,
a Rust panic, refuting totality as claimed. -/
theorem shortform_panic_counterexample :
    (parse_shortform_dir sfForkPanic 7 ctxRealistic).2 = .error .PanicOOB := by
  decide

/-- Entry loop never panics when the context has no file-type bytes. -/
theorem sfLoop_no_panic (ctx : FsContext) (fork_buf : Buf) (parent_ino : Nat)
    (use_8byte : Bool) (h : ctx.has_ftype = false) :
    ∀ n offset,
      (sfLoop ctx fork_buf parent_ino use_8byte offset n).2 ≠ .error .PanicOOB := by
  intro n
  induction n with
  | zero =>
    intro offset
    simp [sfLoop]
  | succ n ih =>
    intro offset
    simp only [sfLoop, h]
    split
    · simp
    · split
      · simp
      · simp only [Bool.false_eq_true, false_and, if_false]
        split
        · simp
        · split
          · simp
          · exact ih _

/-- C10 (amended): `parse_shortform_dir` terminates on every input and, when
the context carries no file-type byte (`has_ftype = false`), never hits the
out-of-bounds read: it returns `Ok` or an `FxfspError`.  With
`has_ftype = true` the file-type read at `name_end` is out of bounds
exactly when an entry's name ends at the buffer end. -/
theorem shortform_no_panic_without_ftype (fork_buf : Buf) (parent_ino : Nat)
    (ctx : FsContext) (h : ctx.has_ftype = false) :
    (parse_shortform_dir fork_buf parent_ino ctx).2 ≠ .error .PanicOOB := by
  unfold parse_shortform_dir
  split
  · simp
  · simp only []
    split
    · simp
    · exact sfLoop_no_panic ctx fork_buf parent_ino _ h _ _

/-- Witness for the amended claim C10 at a concrete input. -/
theorem shortform_no_panic_witness :
    (parse_shortform_dir sfFork8 100 ctxDegenerate).2 ≠ .error .PanicOOB :=
  shortform_no_panic_without_ftype sfFork8 100 ctxDegenerate (by decide)

/-- Read `len` bytes at byte offset `offset` from the image
(`IoReader::read_at`).  The reference engine clamps reads past the end of
the device, returning a shorter slice, which `take` models; I/O failures
are outside the scope of the verified claims. -/
def read_at (img : Buf) (offset len : Nat) : Buf := (img.drop offset).take len

/-- Wrapping usize/u64 subtraction (Rust release semantics), for operands
below 2^64. -/
def wsub (a b : Nat) : Nat := (a + 2 ^ 64 - b) % 2 ^ 64

/-- Round `value` up to the next multiple of the power of two `align`
(`align_up`); for a power of two, `(v + a - 1) & !(a - 1)` equals
`(v + a - 1) / a * a`. -/
def align_up (value align : Nat) : Nat := (value + align - 1) / align * align

/-- Parsed AGI information (`AgiInfo` in `ag.rs`); `XfsAgi` is 296 bytes. -/
structure AgiInfo where
  ag_number : Nat
  inobt_root : Nat
  inobt_level : Nat
deriving DecidableEq

/-- Parse the AGI header (`AgiInfo::from_buf`): magic "XAGI" and sequence
number check. -/
def AgiInfo.from_buf (buf : Buf) (agno : Nat) : Except FxfspError AgiInfo :=
  if buf.length < 296 then .error (.Parse "buffer too small for AGI")
  else if be buf 0 4 ≠ 0x58414749 then .error (.BadMagic "AGI header")
  else if be buf 8 4 ≠ agno then .error (.Parse "AGI sequence number mismatch")
  else .ok { ag_number := agno, inobt_root := be buf 20 4, inobt_level := be buf 24 4 }

/-- Inode B-tree record (`XfsInobtRec` in `btree.rs`, 16 bytes). -/
structure XfsInobtRec where
  ir_startino : Nat
  ir_holemask : Nat
  ir_count : Nat
  ir_freecount : Nat
  ir_free : Nat
deriving DecidableEq

/-- Starting AG-relative inode (`XfsInobtRec::start_ino`). -/
def XfsInobtRec.start_ino (r : XfsInobtRec) : Nat := r.ir_startino

/-- Allocation check (`XfsInobtRec::is_allocated`): bit `i` of the free
mask clear means allocated. -/
def XfsInobtRec.is_allocated (r : XfsInobtRec) (i : Nat) : Bool :=
  r.ir_free &&& shl64 1 i == 0

/-- Decode an inobt record from its 16 bytes. -/
def parseInobtRec (b : Buf) : XfsInobtRec :=
  { ir_startino := be b 0 4, ir_holemask := be b 4 2, ir_count := byteAt b 6,
    ir_freecount := byteAt b 7, ir_free := be b 8 8 }

/-- Header size of a short-form B-tree block (`btree_header_size`). -/
def btree_header_size (v : FormatVersion) : Nat :=
  match v with
  | .V4 => 16
  | .V5 => 56

/-- Parse a short-form B-tree block header (`parse_btree_header`), returning
`(level, numrecs)`. -/
def parse_btree_header (buf : Buf) (v : FormatVersion) : Except FxfspError (Nat × Nat) :=
  match v with
  | .V4 =>
    if buf.length < 16 then .error (.Parse "buffer too small for V4 btree header")
    else if be buf 0 4 ≠ 0x49414254 then .error (.BadMagic "inobt V4 block")
    else .ok (be buf 4 2, be buf 6 2)
  | .V5 =>
    if buf.length < 56 then .error (.Parse "buffer too small for V5 btree header")
    else if be buf 0 4 ≠ 0x49414233 then .error (.BadMagic "inobt V5 block")
    else .ok (be buf 4 2, be buf 6 2)

/-- Loop of `parse_inobt_leaf`: records `i, i+1, ...` while `n` remain.  The
inner record-parse failure branch is unreachable after the length check. -/
def parse_inobt_leaf_from (buf : Buf) (hdr_size : Nat) :
    Nat → Nat → Except FxfspError (List XfsInobtRec)
  | _, 0 => .ok []
  | i, n + 1 =>
    let start := hdr_size + i * 16
    if start + 16 > buf.length then .error (.Parse "inobt leaf record out of bounds")
    else
      match parse_inobt_leaf_from buf hdr_size (i + 1) n with
      | .ok rest => .ok (parseInobtRec ((buf.drop start).take 16) :: rest)
      | .error e => .error e

/-- Parse the leaf records of an inobt block (`parse_inobt_leaf`). -/
def parse_inobt_leaf (buf : Buf) (hdr_size numrecs : Nat) :
    Except FxfspError (List XfsInobtRec) :=
  parse_inobt_leaf_from buf hdr_size 0 numrecs

/-- Loop of `extract_inobt_children`.  The source slices `&buf[start..]`
without a bound check, an index panic when `start > len`, then lets
`ref_from` fail for slices shorter than 4 bytes. -/
def extract_inobt_children_from (buf : Buf) (ptr_offset : Nat) :
    Nat → Nat → Except FxfspError (List Nat)
  | _, 0 => .ok []
  | i, n + 1 =>
    let start := ptr_offset + i * 4
    if start > buf.length then .error .PanicOOB
    else if start + 4 > buf.length then .error (.Parse "inobt ptr out of bounds")
    else
      match extract_inobt_children_from buf ptr_offset (i + 1) n with
      | .ok rest => .ok (be buf start 4 :: rest)
      | .error e => .error e

/-- Extract child AG-block pointers from an inobt interior node
(`extract_inobt_children`): pointer slots start after `maxrecs` key slots,
with `maxrecs` derived from the block size (usize subtraction wraps). -/
def extract_inobt_children (buf : Buf) (hdr_size numrecs block_size : Nat) :
    Except FxfspError (List Nat) :=
  let maxrecs := wsub block_size hdr_size / (4 + 4)
  let ptr_offset := hdr_size + maxrecs * 4
  extract_inobt_children_from buf ptr_offset 0 numrecs

/-- Leaf pass of the inobt walk: read each block of the sorted list, parse
its header (the source does not re-check the level at leaf level) and
collect its records. -/
def inobtLeafPass (img : Buf) (ctx : FsContext) (agno hdr_size block_size : Nat) :
    List Nat → Except FxfspError (List XfsInobtRec)
  | [] => .ok []
  | b :: rest =>
    let buf := read_at img (ctx.ag_block_to_byte agno b) block_size
    match parse_btree_header buf ctx.version with
    | .error e => .error e
    | .ok hdr =>
      match parse_inobt_leaf buf hdr_size hdr.2 with
      | .error e => .error e
      | .ok recs =>
        match inobtLeafPass img ctx agno hdr_size block_size rest with
        | .ok more => .ok (recs ++ more)
        | .error e => .error e

/-- Interior pass of the inobt walk: read each block, check the level, and
collect the next level's child pointers. -/
def inobtInteriorPass (img : Buf) (ctx : FsContext)
    (agno hdr_size block_size current_level : Nat) :
    List Nat → Except FxfspError (List Nat)
  | [] => .ok []
  | b :: rest =>
    let buf := read_at img (ctx.ag_block_to_byte agno b) block_size
    match parse_btree_header buf ctx.version with
    | .error e => .error e
    | .ok hdr =>
      if hdr.1 ≠ current_level then .error (.Parse "inobt level mismatch")
      else
        match extract_inobt_children buf hdr_size hdr.2 block_size with
        | .error e => .error e
        | .ok children =>
          match inobtInteriorPass img ctx agno hdr_size block_size current_level rest with
          | .ok more => .ok (children ++ more)
          | .error e => .error e

/-- Level-by-level walk below the inobt root (`collect_inobt_records`, loop
  over `(0..root_level).rev()`): blocks at the current level are sorted and
  read in one pass; level 0 collects leaf records. -/
def inobtWalk (img : Buf) (ctx : FsContext) (agno hdr_size block_size : Nat) :
    Nat → List Nat → Except FxfspError (List XfsInobtRec)
  | 0, blocks =>
    inobtLeafPass img ctx agno hdr_size block_size
      (blocks.mergeSort (fun a b => Nat.ble a b))
  | current_level + 1, blocks =>
    match inobtInteriorPass img ctx agno hdr_size block_size (current_level + 1)
        (blocks.mergeSort (fun a b => Nat.ble a b)) with
    | .error e => .error e
    | .ok next => inobtWalk img ctx agno hdr_size block_size current_level next

/-- Collect all inobt records for one AG (`collect_inobt_records`): the
AGI level is 1-based, the root block's own level is `level - 1`
(saturating). -/
def collect_inobt_records (img : Buf) (ctx : FsContext)
    (agno root_block level : Nat) : Except FxfspError (List XfsInobtRec) :=
  let root_level := level - 1
  let hdr_size := btree_header_size ctx.version
  let block_size := ctx.block_size
  let buf := read_at img (ctx.ag_block_to_byte agno root_block) block_size
  match parse_btree_header buf ctx.version with
  | .error e => .error e
  | .ok hdr =>
    if hdr.1 ≠ root_level then .error (.Parse "inobt level mismatch")
    else if root_level = 0 then parse_inobt_leaf buf hdr_size hdr.2
    else
      match extract_inobt_children buf hdr_size hdr.2 block_size with
      | .error e => .error e
      | .ok children =>
        inobtWalk img ctx agno hdr_size block_size (root_level - 1) children

/-- Input for one btree-format fork whose bmbt needs walking
(`BmbtDirInput` in `bmbt.rs`). -/
structure BmbtDirInput where
  ino : Nat
  fork_data : Buf
  data_fork_size : Nat
deriving DecidableEq

/-- Pending on-disk bmbt block (`PendingBlock` in `bmbt.rs`). -/
structure PendingBlock where
  fsblock : Nat
  owner_ino : Nat
  expected_level : Nat
deriving DecidableEq

/-- Result map of the bmbt walk.  The source accumulates into a
`HashMap<u64, Vec<Extent>>`; the map contents are modelled by an
association list in first-insertion order, and the randomized iteration
order of `into_iter` is applied at the end through an explicit
enumeration-order parameter. -/
abbrev BmbtResults := List (Nat × List Extent)

/-- `results.entry(k).or_default().extend(v)` on the association-list
representation of the HashMap. -/
def resInsert (m : BmbtResults) (k : Nat) (v : List Extent) : BmbtResults :=
  match m with
  | [] => [(k, v)]
  | (k', v') :: rest =>
    if k' = k then (k', v' ++ v) :: rest else (k', v') :: resInsert rest k v

/-- Size of the on-disk bmbt long-form header (`bmbt_block_hdr_size`). -/
def bmbt_block_hdr_size (v : FormatVersion) : Nat :=
  match v with
  | .V4 => 24
  | .V5 => 72

/-- Parse extent records from an inline leaf-level bmbt root
(`parse_bmbt_leaf_inline`).  Out-of-bounds records break the loop (no
error).  The source iteration calls `XfsBmbtRec::unpack`, whose definition
is not in the tree; it is modelled by `unpack_with_context` per the shipped
`extent.rs` decoder (spec 4.5 specifies the same bit layout). -/
def parse_bmbt_leaf_inline (ctx : FsContext) (fork_data : Buf) :
    Nat → Nat → List Extent
  | _, 0 => []
  | i, n + 1 =>
    let offset := 4 + i * 16
    if offset + 16 > fork_data.length then []
    else
      unpack_with_context ctx ((fork_data.drop offset).take 16)
        :: parse_bmbt_leaf_inline ctx fork_data (i + 1) n

/-- Child-pointer collection from an interior in-inode bmbt root: pointers
live after `maxrecs` 8-byte keys; out-of-bounds pointers break the loop. -/
def bmbtRootChildren (fork_data : Buf) (ptr_start : Nat) (owner_ino level : Nat) :
    Nat → Nat → List PendingBlock
  | _, 0 => []
  | i, n + 1 =>
    let off := ptr_start + i * 8
    if off + 8 > fork_data.length then []
    else
      { fsblock := be fork_data off 8, owner_ino := owner_ino,
        expected_level := level - 1 }
        :: bmbtRootChildren fork_data ptr_start owner_ino level (i + 1) n

/-- Root phase of `collect_all_bmbt_extents`: parse every inline root in
input order, collecting leaf extents into the results map and interior
child pointers into the pending list. -/
def bmbtRoots (ctx : FsContext) :
    List BmbtDirInput → BmbtResults → List PendingBlock →
      Except FxfspError (BmbtResults × List PendingBlock)
  | [], results, pending => .ok (results, pending)
  | dir :: rest, results, pending =>
    if dir.fork_data.length < 4 then .error (.Parse "bmbt root too small")
    else
      let level := be dir.fork_data 0 2
      let numrecs := be dir.fork_data 2 2
      if level = 0 then
        let extents := parse_bmbt_leaf_inline ctx dir.fork_data 0 numrecs
        if extents.isEmpty then bmbtRoots ctx rest results pending
        else bmbtRoots ctx rest (resInsert results dir.ino extents) pending
      else
        let maxrecs := wsub dir.data_fork_size 4 / (8 + 8)
        let ptr_start := 4 + maxrecs * 8
        bmbtRoots ctx rest results
          (pending ++ bmbtRootChildren dir.fork_data ptr_start dir.ino level 0 numrecs)

/-- Leaf-record collection from an on-disk bmbt block; out-of-bounds records
break the loop. -/
def bmbtBlockLeafRecs (ctx : FsContext) (buf : Buf) (hdr_size : Nat) :
    Nat → Nat → List Extent
  | _, 0 => []
  | i, n + 1 =>
    let offset := hdr_size + i * 16
    if offset + 16 > buf.length then []
    else
      unpack_with_context ctx ((buf.drop offset).take 16)
        :: bmbtBlockLeafRecs ctx buf hdr_size (i + 1) n

/-- Child-pointer collection from an on-disk interior bmbt block. -/
def bmbtBlockChildren (buf : Buf) (ptr_start owner_ino expected_level : Nat) :
    Nat → Nat → List PendingBlock
  | _, 0 => []
  | i, n + 1 =>
    let off := ptr_start + i * 8
    if off + 8 > buf.length then []
    else
      { fsblock := be buf off 8, owner_ino := owner_ino,
        expected_level := expected_level - 1 }
        :: bmbtBlockChildren buf ptr_start owner_ino expected_level (i + 1) n

/-- Process the sorted pending blocks of one bmbt level: read each block,
validate magic and level, then collect leaf records into the results map or
child pointers into the next level's pending list. -/
def bmbtProcessBlocks (img : Buf) (ctx : FsContext) :
    List PendingBlock → BmbtResults →
      Except FxfspError (BmbtResults × List PendingBlock)
  | [], results => .ok (results, [])
  | p :: rest, results =>
    let buf := read_at img (fsblock_to_byte ctx p.fsblock) ctx.block_size
    if buf.length < 8 then .error (.Parse "bmbt block too small")
    else
      let magic := be buf 0 4
      let magicOk : Bool :=
        match ctx.version with
        | .V5 => magic == 0x424d4133
        | .V4 => magic == 0x424d4150
      if !magicOk then
        .error (.BadMagic (match ctx.version with
          | .V5 => "bmbt V5 block"
          | .V4 => "bmbt V4 block"))
      else
        let hdr_size := bmbt_block_hdr_size ctx.version
        let level := be buf 4 2
        let numrecs := be buf 6 2
        if level ≠ p.expected_level then .error (.Parse "bmbt level mismatch")
        else if level = 0 then
          let recs := bmbtBlockLeafRecs ctx buf hdr_size 0 numrecs
          let results' := if recs.isEmpty then results
                          else resInsert results p.owner_ino recs
          bmbtProcessBlocks img ctx rest results'
        else
          let maxrecs := wsub ctx.block_size hdr_size / (8 + 8)
          let ptr_start := hdr_size + maxrecs * 8
          let children := bmbtBlockChildren buf ptr_start p.owner_ino p.expected_level 0 numrecs
          match bmbtProcessBlocks img ctx rest results with
          | .error e => .error e
          | .ok (results', next) => .ok (results', children ++ next)

/-- Level loop of the bmbt walk.  Each iteration handles one tree level, so
the maximum `expected_level` strictly decreases; levels come from on-disk
u16 fields, so `65536` steps of fuel can never be exhausted — that branch
is unreachable for every input. -/
def bmbtLevelLoop (img : Buf) (ctx : FsContext) :
    Nat → List PendingBlock → BmbtResults → Except FxfspError BmbtResults
  | 0, _, results => .ok results
  | fuel + 1, pending, results =>
    if pending.isEmpty then .ok results
    else
      let sorted := pending.mergeSort (fun a b => Nat.ble a.fsblock b.fsblock)
      match bmbtProcessBlocks img ctx sorted results with
      | .error e => .error e
      | .ok (results', next) => bmbtLevelLoop img ctx fuel next results'

/-- Collect extent records from all btree-format forks in a level-by-level
batched walk (`collect_all_bmbt_extents`).  `enumOrder` models the
randomized iteration order of the final `HashMap::into_iter().collect()`:
the source's output order is not a function of the input bytes. -/
def collect_all_bmbt_extents (img : Buf) (ctx : FsContext)
    (dirs : List BmbtDirInput) (enumOrder : BmbtResults → BmbtResults) :
    Except FxfspError BmbtResults :=
  match bmbtRoots ctx dirs [] [] with
  | .error e => .error e
  | .ok (results, pending) =>
    match bmbtLevelLoop img ctx 65536 pending results with
    | .error e => .error e
    | .ok results' => .ok (enumOrder results')

/-- Directory data / block-format magic check (`is_data_block_magic` in
`dir/block.rs`). -/
def is_data_block_magic (magic : Nat) (v : FormatVersion) : Bool :=
  match v with
  | .V4 => magic == 0x58443244 || magic == 0x58443242
  | .V5 => magic == 0x58444433 || magic == 0x58444233

/-- Block-format magic check (`is_block_format`). -/
def is_block_format (magic : Nat) : Bool :=
  magic == 0x58443242 || magic == 0x58444233

/-- Directory data block header size (`data_hdr_size`). -/
def data_hdr_size (v : FormatVersion) : Nat :=
  match v with
  | .V4 => 16
  | .V5 => 64

/-- End of the data-entry region of a directory block (`data_end_offset`):
block-format blocks carry a trailing leaf section and an 8-byte tail whose
first word is the leaf count; the subtraction saturates as in the source. -/
def data_end_offset (buf : Buf) (magic : Nat) : Nat :=
  if is_block_format magic ∧ 8 ≤ buf.length then
    let tail_offset := buf.length - 8
    let leaf_count := be buf tail_offset 4
    tail_offset - leaf_count * 8
  else buf.length

/-- Entry loop of `parse_dir_data_block`: free entries advance by their
length, used entries emit a `DirEntry` and advance by the 8-byte-padded
entry size (`(raw + 7) & !7`, i.e. `(raw + 7) / 8 * 8`); every step is
bounds-checked against `data_end` and failures of those checks break the
loop. -/
def dirBlockLoop (buf : Buf) (parent_ino : Nat) (ctx : FsContext)
    (data_end : Nat) (offset : Nat) : List FsEvent :=
  if h6 : offset + 6 ≤ data_end then
    if be buf offset 2 = 0xffff then
      let length := be buf (offset + 2) 2
      if hfree : length = 0 ∨ offset + length > data_end then []
      else dirBlockLoop buf parent_ino ctx data_end (offset + length)
    else
      if offset + 9 > data_end then []
      else
        let inumber := be buf offset 8
        let namelen := byteAt buf (offset + 8)
        let name_start := offset + 9
        let name_end := name_start + namelen
        if name_end > data_end then []
        else
          let name := (buf.drop name_start).take namelen
          let ftype := if ctx.has_ftype ∧ name_end < data_end then byteAt buf name_end else 0
          let ftype_size := if ctx.has_ftype then 1 else 0
          let raw_size := 8 + 1 + namelen + ftype_size + 2
          let padded_size := (raw_size + 7) / 8 * 8
          FsEvent.DirEntry parent_ino inumber name ftype
            :: dirBlockLoop buf parent_ino ctx data_end (offset + padded_size)
  else []
termination_by data_end - offset
decreasing_by
  · omega
  · have hp : 16 ≤ (8 + 1 + namelen + ftype_size + 2 + 7) / 8 * 8 := by omega
    omega

/-- Parse one directory data block (`parse_dir_data_block` in
`dir/block.rs`), returning the emitted events and the outcome; a foreign
magic is silently skipped. -/
def parse_dir_data_block (buf : Buf) (parent_ino : Nat) (ctx : FsContext) :
    List FsEvent × Except FxfspError Unit :=
  if buf.length < 4 then ([], .error (.Parse "dir data block too small"))
  else
    let magic := be buf 0 4
    if !is_data_block_magic magic ctx.version then ([], .ok ())
    else
      (dirBlockLoop buf parent_ino ctx (data_end_offset buf magic)
        (data_hdr_size ctx.version), .ok ())

/-- Callback type: decides, from the events emitted so far and the current
event, whether to continue (`ControlFlow::Continue`) or stop. -/
def Cb : Type := List FsEvent → FsEvent → Bool

/-- Scanner computations: given the event history, return the events this
computation appends (its trace delta) together with its outcome. -/
def ScanM (α : Type) : Type := List FsEvent → List FsEvent × Except FxfspError α

/-- Pure computation: no events, successful value. -/
def spure {α : Type} (a : α) : ScanM α := fun _ => ([], .ok a)

/-- Failing computation (`?` on an `Err`). -/
def sthrow {α : Type} (e : FxfspError) : ScanM α := fun _ => ([], .error e)

/-- Lift a pure `Except` result. -/
def liftE {α : Type} (x : Except FxfspError α) : ScanM α := fun _ => ([], x)

/-- Sequencing: run `m`, then `f` on its value with the extended history;
errors short-circuit (`?`). -/
def sbind {α β : Type} (m : ScanM α) (f : α → ScanM β) : ScanM β := fun h =>
  match m h with
  | (d, .ok a) =>
    let r := f a (h ++ d)
    (d ++ r.1, r.2)
  | (d, .error e) => (d, .error e)

/-- Deliver one event to the callback (`emit` in `scan.rs`):
`ControlFlow::Break` becomes `FxfspError::Stopped`. -/
def emit (cb : Cb) (ev : FsEvent) : ScanM Unit := fun h =>
  ([ev], if cb h ev then .ok () else .error .Stopped)

/-- Deliver a list of events produced by a pure sub-parser in order, then
finish with the parser's outcome; a Break stops the delivery exactly where
the source's in-loop emit would have. -/
def emitAll (cb : Cb) : List FsEvent → Except FxfspError Unit → ScanM Unit
  | [], out => liftE out
  | ev :: rest, out => sbind (emit cb ev) (fun _ => emitAll cb rest out)

/-- Deferred directory work item (`DirWorkItem` in `scan.rs`). -/
structure DirWorkItem where
  ino : Nat
  extents : List Extent
deriving DecidableEq

/-- Deferred btree-format directory (`BtreeDirItem` in `scan.rs`). -/
structure BtreeDirItem where
  ino : Nat
  fork_data : Buf
  data_fork_size : Nat
deriving DecidableEq

/-- Modelled from the spec: the `scan.rs` iteration reads
`info.data_fork_size`, a field its `InodeInfo` variant carries but the
shipped `inode.rs` does not define; per spec 4.6 a btree inode contributes
"its data-fork bytes and the fork area size", the space from the data-fork
offset to the end of the on-disk inode. -/
def data_fork_size_model (ctx : FsContext) (info : InodeInfo) : Nat :=
  ctx.inode_size - info.data_fork_offset

/-- Handle one directory inode (`handle_directory` in `scan.rs`): LOCAL
forks are parsed inline (shortform events are emitted during the inode
phase), EXTENTS forks queue directory work, BTREE forks queue a bmbt walk.
The unguarded slices `&inode_buf[offset..]` and
`inode_buf[fork_start..fork_end]` panic when the start exceeds the buffer
length or the end. -/
def handle_directory (cb : Cb) (ctx : FsContext) (inode_buf : Buf)
    (info : InodeInfo) : ScanM (List DirWorkItem × List BtreeDirItem) :=
  if info.format = XFS_DINODE_FMT_LOCAL then
    let fork_start := info.data_fork_offset
    let fork_end := fork_start + info.size
    if fork_end > inode_buf.length then
      sthrow (.Parse "shortform dir fork out of bounds")
    else
      let fork_buf := (inode_buf.drop fork_start).take (fork_end - fork_start)
      let r := parse_shortform_dir fork_buf info.ino ctx
      sbind (emitAll cb r.1 r.2) (fun _ => spure ([], []))
  else if info.format = XFS_DINODE_FMT_EXTENTS then
    if info.data_fork_offset > inode_buf.length then sthrow .PanicOOB
    else
      let fork_buf := inode_buf.drop info.data_fork_offset
      match parse_extent_list fork_buf info.nextents ctx with
      | .error e => sthrow e
      | .ok extents => spure ([{ ino := info.ino, extents := extents }], [])
  else if info.format = XFS_DINODE_FMT_BTREE then
    let fork_start := info.data_fork_offset
    let fork_end := min (fork_start + data_fork_size_model ctx info) inode_buf.length
    if fork_start > fork_end then sthrow .PanicOOB
    else
      spure ([], [{ ino := info.ino,
                    fork_data := (inode_buf.drop fork_start).take (fork_end - fork_start),
                    data_fork_size := data_fork_size_model ctx info }])
  else spure ([], [])

/-- Slot loop of `process_inode_chunk`: slots `i, i+1, ...` of the 64-inode
chunk while `n` remain; holes and free slots are skipped, a slot past the
buffer end breaks the loop.  The u32 addition `start_agino + i` wraps.  The
`scan.rs` iteration passes `ctx.inode_size` as a fifth argument to a
`parse_inode_core` variant missing from the tree; the shipped four-argument
`inode.rs` parser is used. -/
def chunkSlots (cb : Cb) (ctx : FsContext) (chunk_buf : Buf) (recR : XfsInobtRec)
    (agno : Nat) (is_v5 : Bool) :
    Nat → Nat → ScanM (List DirWorkItem × List BtreeDirItem)
  | _, 0 => spure ([], [])
  | i, n + 1 =>
    let group := i / 4
    let is_hole := recR.ir_holemask &&& (1 <<< group) ≠ 0
    if is_hole ∨ ¬ recR.is_allocated i then
      chunkSlots cb ctx chunk_buf recR agno is_v5 (i + 1) n
    else
      let agino := (recR.start_ino + i) % 2 ^ 32
      let abs_ino := ctx.agino_to_ino agno agino
      let inode_offset := i * ctx.inode_size
      if inode_offset + ctx.inode_size > chunk_buf.length then spure ([], [])
      else
        let inode_buf := chunk_buf.drop inode_offset
        match parse_inode_core inode_buf abs_ino is_v5 ctx.has_nrext64 with
        | .error e => sthrow e
        | .ok info =>
          sbind (emit cb (.InodeFound agno info.ino info.mode info.size info.uid
              info.gid info.nlink info.mtime_sec info.mtime_nsec info.atime_sec
              info.atime_nsec info.ctime_sec info.ctime_nsec info.nblocks))
            (fun _ =>
              sbind (if info.is_dir then handle_directory cb ctx inode_buf info
                     else spure ([], []))
                (fun acc1 =>
                  sbind (chunkSlots cb ctx chunk_buf recR agno is_v5 (i + 1) n)
                    (fun acc2 => spure (acc1.1 ++ acc2.1, acc1.2 ++ acc2.2))))

/-- Process all allocated inodes of one inobt chunk
(`process_inode_chunk` in `scan.rs`). -/
def process_inode_chunk (cb : Cb) (ctx : FsContext) (chunk_buf : Buf)
    (recR : XfsInobtRec) (agno : Nat) (is_v5 : Bool) :
    ScanM (List DirWorkItem × List BtreeDirItem) :=
  chunkSlots cb ctx chunk_buf recR agno is_v5 0 64

/-- Chunk batch of phase 1c: one read request per inobt record, executed in
record order by the default sequential batch.  The per-record
`start_ino / inodes_per_block` division panics when `inodes_per_block` is
zero while building the requests, before anything is emitted. -/
def chunkBatch (img : Buf) (cb : Cb) (ctx : FsContext) (agno : Nat)
    (is_v5 : Bool) (chunk_byte_len : Nat) :
    List XfsInobtRec → ScanM (List DirWorkItem × List BtreeDirItem)
  | [] => spure ([], [])
  | recR :: rest =>
    if ctx.inodes_per_block = 0 then sthrow .PanicOOB
    else
      let chunk_ag_block := recR.start_ino / ctx.inodes_per_block % 2 ^ 32
      let buf := read_at img (ctx.ag_block_to_byte agno chunk_ag_block) chunk_byte_len
      sbind (process_inode_chunk cb ctx buf recR agno is_v5)
        (fun acc1 =>
          sbind (chunkBatch img cb ctx agno is_v5 chunk_byte_len rest)
            (fun acc2 => spure (acc1.1 ++ acc2.1, acc1.2 ++ acc2.2)))

/-- Build the phase-2 read requests (`phase2_dir_sweep`, request loop): one
request per extent with a positive block count and the unwritten flag
clear.  The `scan.rs` iteration computes the offset as
`fsblock_to_byte(ctx, ext.start_block)` on its packed-fsblock `Extent`
variant; on the shipped decomposed `Extent` this is `Extent::start_byte`,
the same byte offset.  The length shift wraps as a usize. -/
def buildDirRequests (ctx : FsContext) :
    List DirWorkItem → List (Nat × Nat × Nat)
  | [] => []
  | item :: rest =>
    (item.extents.filter
        (fun ext => decide (0 < ext.block_count) && !ext.is_unwritten)).map
      (fun ext => (ext.start_byte ctx,
        (ext.block_count <<< (ctx.block_log % 64)) % 2 ^ 64, item.ino))
      ++ buildDirRequests ctx rest

/-- Per-buffer loop of the directory sweep: parse consecutive
directory-block-sized chunks.  When `dir_blk_size` is zero the first parse
fails on an empty slice, so the loop always terminates; the fuel of one
step per buffer byte plus one can therefore never run out — that branch is
unreachable. -/
def dirBufLoop (cb : Cb) (ctx : FsContext) (dbs : Nat) (buf : Buf) (ino : Nat) :
    Nat → Nat → ScanM Unit
  | _, 0 => spure ()
  | off, fuel + 1 =>
    if off + dbs ≤ buf.length then
      let r := parse_dir_data_block ((buf.drop off).take dbs) ino ctx
      sbind (emitAll cb r.1 r.2)
        (fun _ => dirBufLoop cb ctx dbs buf ino (off + dbs) fuel)
    else spure ()

/-- Batch of the directory sweep: read each request and parse its buffer in
directory-block-sized chunks. -/
def dirSweepBatch (img : Buf) (cb : Cb) (ctx : FsContext) (dbs : Nat) :
    List (Nat × Nat × Nat) → ScanM Unit
  | [] => spure ()
  | (off, len, ino) :: rest =>
    let buf := read_at img off len
    sbind (dirBufLoop cb ctx dbs buf ino 0 (buf.length + 1))
      (fun _ => dirSweepBatch img cb ctx dbs rest)

/-- Phase 2 directory sweep (`phase2_dir_sweep` in `scan.rs`): build the
requests, sort them by disk offset (stable, like `sort_by_key`), and run
the batch. -/
def phase2_dir_sweep (img : Buf) (cb : Cb) (ctx : FsContext)
    (dir_work : List DirWorkItem) : ScanM Unit :=
  let requests := (buildDirRequests ctx dir_work).mergeSort
    (fun a b => Nat.ble a.1 b.1)
  dirSweepBatch img cb ctx ctx.dir_blk_size requests

/-- Scan one allocation group (`scan_ag` in `scan.rs`): AGI header, inobt
walk, sorted record list, chunk batch, bmbt walk for queued btree
directories, then the directory sweep.  The unconditional
`64 * inode_size / block_size` division panics when `block_size` is zero;
the AGI sub-slice `&agi_buf[agi_within_block..]` panics past the buffer
end. -/
def scan_ag (img : Buf) (enumOrder : BmbtResults → BmbtResults) (cb : Cb)
    (ctx : FsContext) (agno : Nat) (is_v5 : Bool) : ScanM Unit :=
  let agi_offset := ctx.agi_byte_offset agno
  let bsm1 := wsub ctx.block_size 1
  let agi_block_offset := agi_offset &&& (2 ^ 64 - 1 - bsm1)
  let agi_read_size := align_up ctx.block_size 512
  let agi_buf := read_at img agi_block_offset agi_read_size
  let agi_within := agi_offset - agi_block_offset
  if agi_within > agi_buf.length then sthrow .PanicOOB
  else
    match AgiInfo.from_buf (agi_buf.drop agi_within) agno with
    | .error e => sthrow e
    | .ok agi =>
      match collect_inobt_records img ctx agno agi.inobt_root agi.inobt_level with
      | .error e => sthrow e
      | .ok inobt_records0 =>
        let inobt_records := inobt_records0.mergeSort
          (fun a b => Nat.ble a.start_ino b.start_ino)
        if ctx.block_size = 0 then sthrow .PanicOOB
        else
          let chunk_blocks := 64 * ctx.inode_size / ctx.block_size
          let chunk_byte_len := chunk_blocks * ctx.block_size
          sbind (chunkBatch img cb ctx agno is_v5 chunk_byte_len inobt_records)
            (fun acc =>
              let dir_work0 := acc.1
              let btree_dirs := acc.2
              let afterBmbt : ScanM (List DirWorkItem) :=
                if btree_dirs.isEmpty then spure dir_work0
                else
                  let inputs := btree_dirs.map (fun item =>
                    BmbtDirInput.mk item.ino item.fork_data item.data_fork_size)
                  match collect_all_bmbt_extents img ctx inputs enumOrder with
                  | .error e => sthrow e
                  | .ok bmbt_results =>
                    spure (dir_work0 ++
                      (bmbt_results.filter (fun p => !p.2.isEmpty)).map
                        (fun p => DirWorkItem.mk p.1 p.2))
              sbind afterBmbt (fun dir_work =>
                if dir_work.isEmpty then spure ()
                else phase2_dir_sweep img cb ctx dir_work))

/-- Ascending AG loop of `run_scan_inner`: scan `n` AGs starting at
`agno`. -/
def forAgs (img : Buf) (enumOrder : BmbtResults → BmbtResults) (cb : Cb)
    (ctx : FsContext) (is_v5 : Bool) : Nat → Nat → ScanM Unit
  | _, 0 => spure ()
  | agno, n + 1 =>
    sbind (scan_ag img enumOrder cb ctx agno is_v5)
      (fun _ => forAgs img enumOrder cb ctx is_v5 (agno + 1) n)

/-- Full scan (`run_scan_inner` in `scan.rs`): read and parse the
superblock, emit the `Superblock` event, then scan every AG in ascending
order. -/
def run_scan_inner (img : Buf) (enumOrder : BmbtResults → BmbtResults)
    (cb : Cb) : ScanM Unit :=
  let sb_buf := read_at img 0 (align_up 4096 512)
  match FsContext.from_superblock sb_buf with
  | .error e => sthrow e
  | .ok ctx =>
    sbind (emit cb (.Superblock ctx.block_size ctx.ag_count ctx.inode_size
        ctx.root_ino))
      (fun _ => forAgs img enumOrder cb ctx (ctx.version == FormatVersion.V5)
        0 ctx.ag_count)

/-- Public entry point (`scan_reader` in `lib.rs`): an internal `Stopped`
is converted into success, every other outcome is passed through. -/
def scan_reader (img : Buf) (enumOrder : BmbtResults → BmbtResults)
    (cb : Cb) : List FsEvent × Except FxfspError Unit :=
  let r := run_scan_inner img enumOrder cb []
  match r.2 with
  | .error .Stopped => (r.1, .ok ())
  | other => (r.1, other)

/-- Superblock-variant test. -/
def evIsSuperblock : FsEvent → Bool
  | .Superblock _ _ _ _ => true
  | _ => false

/-- FileExtents-variant test. -/
def evIsFileExtents : FsEvent → Bool
  | .FileExtents _ _ => true
  | _ => false

/-- InodeFound-variant test. -/
def evIsInodeFound : FsEvent → Bool
  | .InodeFound _ _ _ _ _ _ _ _ _ _ _ _ _ _ => true
  | _ => false

/-- DirEntry-variant test. -/
def evIsDirEntry : FsEvent → Bool
  | .DirEntry _ _ _ _ => true
  | _ => false

/-- Callbacks that ignore the history (e.g. the always-continue callback of
a full scan). -/
def CbIndep (cb : Cb) : Prop := ∀ h h' ev, cb h ev = cb h' ev

/-- The always-continue callback: a full scan. -/
def alwaysContinue : Cb := fun _ _ => true

/-- Combined structural invariant of scanner computations, for a callback
`cb` and an event predicate `P`:
every appended event satisfies `P`; a `false` callback answer can only
happen at the last appended event and forces the `Stopped` outcome; and for
history-independent callbacks the computation does not depend on the
history. -/
def Scoped (cb : Cb) (P : FsEvent → Prop) {α : Type} (m : ScanM α) : Prop :=
  (∀ h, ∀ e ∈ (m h).1, P e) ∧
    (∀ h pre ev post, (m h).1 = pre ++ ev :: post → cb (h ++ pre) ev = false →
      post = [] ∧ (m h).2 = .error .Stopped) ∧
    (CbIndep cb → ∀ h, m h = m [])

/-- Pure computations are scoped. -/
theorem scoped_spure {cb : Cb} {P : FsEvent → Prop} {α : Type} (a : α) :
    Scoped cb P (spure a) := by
  refine ⟨?_, ?_, ?_⟩ <;> intro h <;> simp [spure]

/-- Failing computations are scoped. -/
theorem scoped_sthrow {cb : Cb} {P : FsEvent → Prop} {α : Type} (e : FxfspError) :
    Scoped cb P (sthrow (α := α) e) := by
  refine ⟨?_, ?_, ?_⟩ <;> intro h <;> simp [sthrow]

/-- Lifted pure results are scoped. -/
theorem scoped_liftE {cb : Cb} {P : FsEvent → Prop} {α : Type}
    (x : Except FxfspError α) : Scoped cb P (liftE x) := by
  refine ⟨?_, ?_, ?_⟩ <;> intro h <;> simp [liftE]

/-- Emitting one `P`-event is scoped. -/
theorem scoped_emit {cb : Cb} {P : FsEvent → Prop} {ev : FsEvent} (hev : P ev) :
    Scoped cb P (emit cb ev) := by
  refine ⟨?_, ?_, ?_⟩
  · intro h e he
    simp only [emit, List.mem_singleton] at he
    rwa [he]
  · intro h pre ev' post heq hc
    simp only [emit] at heq ⊢
    cases pre with
    | nil =>
      simp only [List.nil_append, List.cons.injEq] at heq
      obtain ⟨hev', hpost⟩ := heq
      subst hev'
      refine ⟨hpost.symm, ?_⟩
      rw [List.append_nil] at hc
      simp [hc]
    | cons x xs =>
      simp only [List.cons_append, List.cons.injEq] at heq
      exact absurd heq.2 (by simp)
  · intro hind h
    simp only [emit]
    rw [hind h []]

/-- Sequencing preserves scopedness. -/
theorem scoped_sbind {cb : Cb} {P : FsEvent → Prop} {α β : Type}
    {m : ScanM α} {f : α → ScanM β}
    (hm : Scoped cb P m) (hf : ∀ a, Scoped cb P (f a)) :
    Scoped cb P (sbind m f) := by
  obtain ⟨hm1, hm2, hm3⟩ := hm
  refine ⟨?_, ?_, ?_⟩
  · intro h e he
    unfold sbind at he
    rcases hr : m h with ⟨d, r⟩
    rw [hr] at he
    cases r with
    | ok a =>
      simp only [List.mem_append] at he
      rcases he with h1 | h2
      · have := hm1 h e
        rw [hr] at this
        exact this h1
      · exact (hf a).1 (h ++ d) e h2
    | error er =>
      have := hm1 h e
      rw [hr] at this
      exact this he
  · intro h pre ev post heq hc
    unfold sbind at heq ⊢
    rcases hr : m h with ⟨d, r⟩
    try rw [hr] at heq
    try rw [hr]
    cases r with
    | ok a =>
      simp only at heq ⊢
      rcases List.append_eq_append_iff.mp heq with ⟨a', ha1, ha2⟩ | ⟨c', hc1, hc2⟩
      · -- the stopping event lies in the delta of `f`
        have hstop := (hf a).2.1 (h ++ d) a' ev post ha2
          (by rw [List.append_assoc, ← ha1]; exact hc)
        exact hstop
      · cases c' with
        | nil =>
          rw [List.append_nil] at hc1
          simp only [List.nil_append] at hc2
          have hstop := (hf a).2.1 (h ++ d) [] ev post hc2.symm
            (by rw [List.append_nil, hc1]; exact hc)
          exact hstop
        | cons ev2 l =>
          simp only [List.cons_append, List.cons.injEq] at hc2
          obtain ⟨hev2, hpost⟩ := hc2
          have hstop := hm2 h pre ev l
            (by rw [hr, hc1, hev2]) hc
          have := hstop.2
          rw [hr] at this
          exact absurd this (by simp)
    | error er =>
      have hstop := hm2 h pre ev post (by rw [hr]; exact heq) hc
      have h2 := hstop.2
      rw [hr] at h2
      injection h2 with her
      exact ⟨hstop.1, by rw [her]⟩
  · intro hind h
    unfold sbind
    rw [hm3 hind h]
    rcases hr : m [] with ⟨d, r⟩
    cases r with
    | ok a => simp only; rw [(hf a).2.2 hind (h ++ d), (hf a).2.2 hind ([] ++ d)]
    | error er => rfl

/-- Conditionals preserve scopedness. -/
theorem scoped_ite {cb : Cb} {P : FsEvent → Prop} {α : Type} (c : Prop)
    [Decidable c] {m1 m2 : ScanM α}
    (h1 : Scoped cb P m1) (h2 : Scoped cb P m2) :
    Scoped cb P (if c then m1 else m2) := by
  split
  · exact h1
  · exact h2

/-- Delivering a list of `P`-events is scoped. -/
theorem scoped_emitAll {cb : Cb} {P : FsEvent → Prop} :
    ∀ (evs : List FsEvent) (out : Except FxfspError Unit),
      (∀ e ∈ evs, P e) → Scoped cb P (emitAll cb evs out) := by
  intro evs
  induction evs with
  | nil => intro out _; exact scoped_liftE out
  | cons ev rest ih =>
    intro out hevs
    exact scoped_sbind (scoped_emit (hevs ev (List.mem_cons_self _ _)))
      (fun _ => ih out (fun e he => hevs e (List.mem_cons_of_mem _ he)))

/-- Weakening the event predicate preserves scopedness. -/
theorem scoped_mono {cb : Cb} {P Q : FsEvent → Prop} {α : Type} {m : ScanM α}
    (hm : Scoped cb P m) (hpq : ∀ e, P e → Q e) : Scoped cb Q m :=
  ⟨fun h e he => hpq e (hm.1 h e he), hm.2.1, hm.2.2⟩

/-- Events appended by the shortform entry loop are directory entries. -/
theorem sfLoop_events_dir (ctx : FsContext) (fork_buf : Buf) (parent_ino : Nat)
    (use_8byte : Bool) :
    ∀ n offset, ∀ e ∈ (sfLoop ctx fork_buf parent_ino use_8byte offset n).1,
      evIsDirEntry e = true := by
  intro n
  induction n with
  | zero =>
    intro offset e he
    simp [sfLoop] at he
  | succ n ih =>
    intro offset e he
    simp only [sfLoop] at he
    repeat' split at he
    all_goals first
      | (rcases List.mem_cons.mp he with h1 | h2
         · rw [h1]; rfl
         · exact ih _ e h2)
      | simp at he

/-- Events of the shortform directory parser are directory entries. -/
theorem shortform_events_dir (fork_buf : Buf) (parent_ino : Nat)
    (ctx : FsContext) :
    ∀ e ∈ (parse_shortform_dir fork_buf parent_ino ctx).1, evIsDirEntry e = true := by
  intro e he
  simp only [parse_shortform_dir] at he
  repeat' split at he
  all_goals first
    | (rcases List.mem_cons.mp he with h1 | hrest
       · rw [h1]; rfl
       · rcases List.mem_cons.mp hrest with h2 | h3
         · rw [h2]; rfl
         · exact sfLoop_events_dir ctx fork_buf parent_ino _ _ _ e h3)
    | simp at he

/-- Events of the directory-block entry loop are directory entries. -/
theorem dirBlockLoop_events_dir (buf : Buf) (parent_ino : Nat) (ctx : FsContext)
    (data_end : Nat) :
    ∀ k offset, data_end - offset ≤ k →
      ∀ e ∈ dirBlockLoop buf parent_ino ctx data_end offset,
        evIsDirEntry e = true := by
  intro k
  induction k with
  | zero =>
    intro offset hk e he
    rw [dirBlockLoop] at he
    split at he
    · omega
    · simp at he
  | succ k ih =>
    intro offset hk e he
    rw [dirBlockLoop] at he
    repeat' split at he
    all_goals try simp at he
    all_goals first
      | (obtain ⟨⟨hne, hle⟩, hmem⟩ := he
         exact ih _ (by omega) e hmem)
      | (obtain ⟨hb, hor⟩ := he
         rcases hor with h1 | h2
         · rw [h1]; rfl
         · exact ih _ (by omega) e h2)
      | (rcases he with h1 | h2
         · rw [h1]; rfl
         · exact ih _ (by omega) e h2)
      | exact ih _ (by omega) e he
      | omega

/-- Events of the directory-block parser are directory entries. -/
theorem dir_block_events_dir (buf : Buf) (parent_ino : Nat) (ctx : FsContext) :
    ∀ e ∈ (parse_dir_data_block buf parent_ino ctx).1, evIsDirEntry e = true := by
  intro e he
  unfold parse_dir_data_block at he
  split at he
  · simp at he
  · dsimp only at he
    split at he
    · simp at he
    · exact dirBlockLoop_events_dir buf parent_ino ctx _ _ _ (le_refl _) e he

/-- Event predicate for the per-AG phase: neither a superblock nor a
file-extents event. -/
def PnoSBFE (e : FsEvent) : Prop :=
  evIsSuperblock e = false ∧ evIsFileExtents e = false

/-- Directory entries satisfy the per-AG event predicate. -/
theorem dirEntry_PnoSBFE (e : FsEvent) (he : evIsDirEntry e = true) : PnoSBFE e := by
  cases e <;> simp_all [evIsDirEntry, evIsSuperblock, evIsFileExtents, PnoSBFE]

/-- The directory-inode handler is scoped for the per-AG predicate. -/
theorem scoped_handle_directory (cb : Cb) (ctx : FsContext) (inode_buf : Buf)
    (info : InodeInfo) :
    Scoped cb PnoSBFE (handle_directory cb ctx inode_buf info) := by
  unfold handle_directory
  split
  · dsimp only
    split
    · exact scoped_sthrow _
    · exact scoped_sbind
        (scoped_emitAll _ _
          (fun e he => dirEntry_PnoSBFE e (shortform_events_dir _ _ _ e he)))
        (fun _ => scoped_spure _)
  · split
    · split
      · exact scoped_sthrow _
      · dsimp only
        split
        · exact scoped_sthrow _
        · exact scoped_spure _
    · split
      · dsimp only
        split
        · exact scoped_sthrow _
        · exact scoped_spure _
      · exact scoped_spure _

/-- The chunk slot loop is scoped for the per-AG predicate. -/
theorem scoped_chunkSlots (cb : Cb) (ctx : FsContext) (chunk_buf : Buf)
    (recR : XfsInobtRec) (agno : Nat) (is_v5 : Bool) :
    ∀ n i, Scoped cb PnoSBFE (chunkSlots cb ctx chunk_buf recR agno is_v5 i n) := by
  intro n
  induction n with
  | zero =>
    intro i
    exact scoped_spure _
  | succ n ih =>
    intro i
    rw [chunkSlots]
    split
    · exact ih (i + 1)
    · dsimp only
      split
      · exact scoped_spure _
      · split
        · exact scoped_sthrow _
        · refine scoped_sbind (scoped_emit ⟨rfl, rfl⟩) (fun _ => ?_)
          refine scoped_sbind
            (scoped_ite _ (scoped_handle_directory _ _ _ _) (scoped_spure _))
            (fun acc1 => ?_)
          exact scoped_sbind (ih (i + 1)) (fun acc2 => scoped_spure _)

/-- The chunk batch is scoped for the per-AG predicate. -/
theorem scoped_chunkBatch (img : Buf) (cb : Cb) (ctx : FsContext) (agno : Nat)
    (is_v5 : Bool) (chunk_byte_len : Nat) :
    ∀ recs, Scoped cb PnoSBFE (chunkBatch img cb ctx agno is_v5 chunk_byte_len recs) := by
  intro recs
  induction recs with
  | nil => exact scoped_spure _
  | cons recR rest ih =>
    rw [chunkBatch]
    split
    · exact scoped_sthrow _
    · exact scoped_sbind (scoped_chunkSlots _ _ _ _ _ _ _ _)
        (fun acc1 => scoped_sbind ih (fun acc2 => scoped_spure _))

/-- The per-buffer directory loop is scoped for the per-AG predicate. -/
theorem scoped_dirBufLoop (cb : Cb) (ctx : FsContext) (dbs : Nat) (buf : Buf)
    (ino : Nat) :
    ∀ fuel off, Scoped cb PnoSBFE (dirBufLoop cb ctx dbs buf ino off fuel) := by
  intro fuel
  induction fuel with
  | zero =>
    intro off
    exact scoped_spure _
  | succ fuel ih =>
    intro off
    rw [dirBufLoop]
    split
    · exact scoped_sbind
        (scoped_emitAll _ _
          (fun e he => dirEntry_PnoSBFE e (dir_block_events_dir _ _ _ e he)))
        (fun _ => ih (off + dbs))
    · exact scoped_spure _

/-- The directory-sweep batch is scoped for the per-AG predicate. -/
theorem scoped_dirSweepBatch (img : Buf) (cb : Cb) (ctx : FsContext) (dbs : Nat) :
    ∀ reqs, Scoped cb PnoSBFE (dirSweepBatch img cb ctx dbs reqs) := by
  intro reqs
  induction reqs with
  | nil => exact scoped_spure _
  | cons req rest ih =>
    rcases req with ⟨off, len, ino⟩
    rw [dirSweepBatch]
    exact scoped_sbind (scoped_dirBufLoop _ _ _ _ _ _ _) (fun _ => ih)

/-- Phase 2 is scoped for the per-AG predicate. -/
theorem scoped_phase2 (img : Buf) (cb : Cb) (ctx : FsContext)
    (dir_work : List DirWorkItem) :
    Scoped cb PnoSBFE (phase2_dir_sweep img cb ctx dir_work) :=
  scoped_dirSweepBatch _ _ _ _ _

/-- Scanning one AG is scoped for the per-AG predicate: it emits neither a
superblock nor a file-extents event, stops cleanly, and is independent of
the history for history-independent callbacks. -/
theorem scoped_scan_ag (img : Buf) (enumOrder : BmbtResults → BmbtResults)
    (cb : Cb) (ctx : FsContext) (agno : Nat) (is_v5 : Bool) :
    Scoped cb PnoSBFE (scan_ag img enumOrder cb ctx agno is_v5) := by
  unfold scan_ag
  dsimp only
  split
  · exact scoped_sthrow _
  · split
    · exact scoped_sthrow _
    · split
      · exact scoped_sthrow _
      · try dsimp only
        split
        · exact scoped_sthrow _
        · refine scoped_sbind (scoped_chunkBatch _ _ _ _ _ _ _) (fun acc => ?_)
          refine scoped_sbind ?_ (fun dir_work => ?_)
          · try dsimp only
            split
            · exact scoped_spure _
            · split
              · exact scoped_sthrow _
              · exact scoped_spure _
          · exact scoped_ite _ (scoped_spure _) (scoped_phase2 _ _ _ _)

/-- The ascending AG loop is scoped for the per-AG predicate. -/
theorem scoped_forAgs (img : Buf) (enumOrder : BmbtResults → BmbtResults)
    (cb : Cb) (ctx : FsContext) (is_v5 : Bool) :
    ∀ n agno, Scoped cb PnoSBFE (forAgs img enumOrder cb ctx is_v5 agno n) := by
  intro n
  induction n with
  | zero =>
    intro agno
    exact scoped_spure _
  | succ n ih =>
    intro agno
    rw [forAgs]
    exact scoped_sbind (scoped_scan_ag _ _ _ _ _ _) (fun _ => ih (agno + 1))

/-- The full scan is scoped: every emitted event is free of the
file-extents variant, a Break can only fall on the last emitted event and
yields the `Stopped` outcome, and the run is history-independent for
history-independent callbacks. -/
theorem scoped_run_scan_inner (img : Buf)
    (enumOrder : BmbtResults → BmbtResults) (cb : Cb) :
    Scoped cb (fun e => evIsFileExtents e = false)
      (run_scan_inner img enumOrder cb) := by
  unfold run_scan_inner
  dsimp only
  split
  · exact scoped_sthrow _
  · refine scoped_sbind (scoped_emit rfl) (fun _ => ?_)
    exact scoped_mono (scoped_forAgs _ _ _ _ _ _ _) (fun e he => he.2)

/-- The always-continue callback ignores the history. -/
theorem cbIndep_alwaysContinue : CbIndep alwaysContinue := fun _ _ _ => rfl

/-- Event trace of a full scan (every event accepted). -/
def scanEvents (img : Buf) (enumOrder : BmbtResults → BmbtResults) : List FsEvent :=
  (run_scan_inner img enumOrder alwaysContinue []).1

/-- Event trace contributed by the scan of one AG during a full scan. -/
def agDelta (img : Buf) (enumOrder : BmbtResults → BmbtResults)
    (ctx : FsContext) (agno : Nat) : List FsEvent :=
  (scan_ag img enumOrder alwaysContinue ctx agno
    (ctx.version == FormatVersion.V5) []).1

/-- The AG loop's trace is the concatenation of consecutive per-AG traces:
some prefix of the AGs completes (the last one possibly partially, on an
error). -/
theorem forAgs_decomp (img : Buf) (enumOrder : BmbtResults → BmbtResults)
    (ctx : FsContext) (is_v5 : Bool) :
    ∀ n agno h, ∃ m, m ≤ n ∧
      (forAgs img enumOrder alwaysContinue ctx is_v5 agno n h).1
        = ((List.range m).map (fun k =>
            (scan_ag img enumOrder alwaysContinue ctx (agno + k) is_v5 []).1)).join := by
  intro n
  induction n with
  | zero =>
    intro agno h
    exact ⟨0, le_refl 0, by simp [forAgs, spure]⟩
  | succ n ih =>
    intro agno h
    rw [forAgs]
    have hinv := (scoped_scan_ag img enumOrder alwaysContinue ctx agno is_v5).2.2
      cbIndep_alwaysContinue
    unfold sbind
    rw [hinv h]
    rcases hr : scan_ag img enumOrder alwaysContinue ctx agno is_v5 [] with ⟨d, r⟩
    cases r with
    | error e =>
      refine ⟨1, by omega, ?_⟩
      have hone : List.range 1 = [0] := rfl
      simp only [hone, List.map_cons, List.map_nil, List.join_cons,
        List.join_nil, List.append_nil, Nat.add_zero, hr]
    | ok a =>
      obtain ⟨m, hm, hdec⟩ := ih (agno + 1) (h ++ d)
      refine ⟨m + 1, by omega, ?_⟩
      simp only
      rw [hdec]
      simp only [List.range_succ_eq_map, List.map_cons, List.join_cons,
        List.map_map, Nat.add_zero, hr]
      congr 1
      apply congrArg
      apply List.map_congr_left
      intro k _
      simp only [Function.comp]
      have hadd : agno + (k + 1) = agno + 1 + k := by omega
      rw [hadd]

/-- Delivering an event to the always-continue callback. -/
theorem emit_AC (ev : FsEvent) (h : List FsEvent) :
    emit alwaysContinue ev h = ([ev], .ok ()) := rfl

/-- Trace decomposition of a successful-superblock full scan: the
`Superblock` event followed by the per-AG traces of a prefix of the AGs in
ascending order. -/
theorem run_scan_decomp (img : Buf) (enumOrder : BmbtResults → BmbtResults)
    (ctx : FsContext)
    (hctx : FsContext.from_superblock (read_at img 0 (align_up 4096 512)) = .ok ctx) :
    ∃ m, m ≤ ctx.ag_count ∧
      scanEvents img enumOrder
        = FsEvent.Superblock ctx.block_size ctx.ag_count ctx.inode_size ctx.root_ino
            :: ((List.range m).map (fun k => agDelta img enumOrder ctx k)).join := by
  unfold scanEvents run_scan_inner
  rw [hctx]
  dsimp only
  obtain ⟨m, hm, hdec⟩ := forAgs_decomp img enumOrder ctx
    (ctx.version == FormatVersion.V5) ctx.ag_count 0
    ([] ++ [FsEvent.Superblock ctx.block_size ctx.ag_count ctx.inode_size ctx.root_ino])
  refine ⟨m, hm, ?_⟩
  unfold sbind
  rw [emit_AC]
  dsimp only
  rw [hdec]
  simp only [List.nil_append, List.singleton_append]
  congr 1
  apply congrArg
  apply List.map_congr_left
  intro k _
  unfold agDelta
  rw [Nat.zero_add]

/-- C1: over a full scan of any image (and any HashMap enumeration order),
the emitted event sequence satisfies: every `Superblock` event sits at the
head of the trace, and the head is a `Superblock` when the trace is
nonempty; no `FileExtents` event is ever emitted by this scan, so within
each allocation group every `InodeFound` event precedes every `FileExtents`
event and every `FileExtents` event precedes every `DirEntry` event
(vacuously); and the trace is the `Superblock` event followed by the per-AG
traces of a prefix of the AGs in ascending order, so every event from AG
`n` precedes every event from AG `n+1`. -/
theorem scan_event_ordering (img : Buf) (enumOrder : BmbtResults → BmbtResults) :
    (∀ pre e post, scanEvents img enumOrder = pre ++ e :: post →
      evIsSuperblock e = true → pre = []) ∧
    (scanEvents img enumOrder = [] ∨
      ∃ bs ac isz ri rest,
        scanEvents img enumOrder = FsEvent.Superblock bs ac isz ri :: rest) ∧
    (∀ e ∈ scanEvents img enumOrder, evIsFileExtents e = false) ∧
    (∀ ctx k pre1 e1 mid e2 post,
      agDelta img enumOrder ctx k = pre1 ++ e1 :: mid ++ e2 :: post →
      evIsFileExtents e1 = true → evIsInodeFound e2 = true → False) ∧
    (∀ ctx k pre1 e1 mid e2 post,
      agDelta img enumOrder ctx k = pre1 ++ e1 :: mid ++ e2 :: post →
      evIsDirEntry e1 = true → evIsFileExtents e2 = true → False) ∧
    (∀ ctx, FsContext.from_superblock (read_at img 0 (align_up 4096 512)) = .ok ctx →
      ∃ m, m ≤ ctx.ag_count ∧
        scanEvents img enumOrder
          = FsEvent.Superblock ctx.block_size ctx.ag_count ctx.inode_size ctx.root_ino
              :: ((List.range m).map (fun k => agDelta img enumOrder ctx k)).join) := by
  have hnoFE : ∀ e ∈ scanEvents img enumOrder, evIsFileExtents e = false :=
    fun e he => (scoped_run_scan_inner img enumOrder alwaysContinue).1 [] e he
  have hagP : ∀ ctx k, ∀ e ∈ agDelta img enumOrder ctx k, PnoSBFE e :=
    fun ctx k e he =>
      (scoped_scan_ag img enumOrder alwaysContinue ctx k
        (ctx.version == FormatVersion.V5)).1 [] e he
  have hshape : scanEvents img enumOrder = [] ∨
      ∃ ctx rest,
        FsContext.from_superblock (read_at img 0 (align_up 4096 512)) = .ok ctx ∧
        scanEvents img enumOrder
          = FsEvent.Superblock ctx.block_size ctx.ag_count ctx.inode_size ctx.root_ino
              :: rest ∧
        ∀ e ∈ rest, evIsSuperblock e = false := by
    rcases hsb : FsContext.from_superblock (read_at img 0 (align_up 4096 512)) with e | ctx
    · left
      unfold scanEvents run_scan_inner
      rw [hsb]
      rfl
    · right
      obtain ⟨m, _, hdec⟩ := run_scan_decomp img enumOrder ctx hsb
      refine ⟨ctx, _, rfl, hdec, ?_⟩
      intro e he
      rcases List.mem_join.mp he with ⟨d, hd, hed⟩
      rcases List.mem_map.mp hd with ⟨k, _, hk⟩
      rw [← hk] at hed
      exact (hagP ctx k e hed).1
  refine ⟨?_, ?_, hnoFE, ?_, ?_, ?_⟩
  · intro pre e post heq hsb
    rcases hshape with h0 | ⟨ctx, rest, _, hsh, hrest⟩
    · rw [h0] at heq
      exact absurd heq.symm (List.append_ne_nil_of_right_ne_nil _ (by simp))
    · rw [hsh] at heq
      cases pre with
      | nil => rfl
      | cons x xs =>
        simp only [List.cons_append, List.cons.injEq] at heq
        have hmem : e ∈ rest := by
          rw [heq.2]
          exact List.mem_append_right _ (List.mem_cons_self _ _)
        rw [hrest e hmem] at hsb
        exact absurd hsb (by simp)
  · rcases hshape with h0 | ⟨ctx, rest, _, hsh, _⟩
    · exact Or.inl h0
    · exact Or.inr ⟨_, _, _, _, rest, hsh⟩
  · intro ctx k pre1 e1 mid e2 post heq hfe _
    have hmem : e1 ∈ agDelta img enumOrder ctx k := by
      rw [heq]
      exact List.mem_append_left _
        (List.mem_append_right _ (List.mem_cons_self _ _))
    exact absurd hfe (by rw [(hagP ctx k e1 hmem).2]; simp)
  · intro ctx k pre1 e1 mid e2 post heq _ hfe
    have hmem : e2 ∈ agDelta img enumOrder ctx k := by
      rw [heq]
      exact List.mem_append_right _ (List.mem_cons_self _ _)
    exact absurd hfe (by rw [(hagP ctx k e2 hmem).2]; simp)
  · intro ctx hctx
    exact run_scan_decomp img enumOrder ctx hctx

/-- Minimal image whose superblock parses: valid magic, all other fields
zero, hence `ag_count = 0`. -/
def imgSB : Buf := [0x58, 0x46, 0x53, 0x42] ++ List.replicate 204 0

/-- Context parsed from `imgSB`. -/
def ctxSB : FsContext :=
  { version := .V4, block_size := 0, block_log := 0, ag_count := 0,
    ag_blocks := 0, ag_blk_log := 0, inode_size := 0, inodes_per_block := 0,
    inode_log := 0, inop_blog := 0, dir_blk_log := 0, root_ino := 0,
    sect_size := 0, has_ftype := false, has_nrext64 := false }

set_option maxRecDepth 4000 in
/-- Witness for claim C1 at a concrete image. -/
theorem scan_event_ordering_witness :
    ∃ m, m ≤ ctxSB.ag_count ∧
      scanEvents imgSB id
        = FsEvent.Superblock ctxSB.block_size ctxSB.ag_count ctxSB.inode_size
            ctxSB.root_ino
            :: ((List.range m).map (fun k => agDelta imgSB id ctxSB k)).join :=
  (scan_event_ordering imgSB id).2.2.2.2.2 ctxSB (by decide)

/-- The always-stop callback. -/
def cbStop : Cb := fun _ _ => false

/-- C9: for every image, enumeration order and callback, the top-level
`scan_reader` never surfaces the internal `Stopped` error; and whenever the
callback answers the stop signal at some emitted event, that event is the
last one emitted (no further events) and `scan_reader` returns the trace
with `Ok(())`. -/
theorem stop_is_clean (img : Buf) (enumOrder : BmbtResults → BmbtResults)
    (cb : Cb) :
    (scan_reader img enumOrder cb).2 ≠ .error .Stopped ∧
      ∀ pre ev post,
        (run_scan_inner img enumOrder cb []).1 = pre ++ ev :: post →
          cb pre ev = false →
            post = [] ∧
              scan_reader img enumOrder cb
                = ((run_scan_inner img enumOrder cb []).1, .ok ()) := by
  constructor
  · unfold scan_reader
    dsimp only
    rcases hres : (run_scan_inner img enumOrder cb []).2 with e | u
    · cases e <;> simp [hres]
    · simp [hres]
  · intro pre ev post heq hc
    have hstop := (scoped_run_scan_inner img enumOrder cb).2.1 [] pre ev post heq hc
    refine ⟨hstop.1, ?_⟩
    unfold scan_reader
    dsimp only
    rw [hstop.2]

set_option maxRecDepth 4000 in
/-- Witness for claim C9: stopping at the first event of the minimal image. -/
theorem stop_is_clean_witness :
    ([] : List FsEvent) = [] ∧
      scan_reader imgSB id cbStop
        = ((run_scan_inner imgSB id cbStop []).1, .ok ()) :=
  (stop_is_clean imgSB id cbStop).2 [] (.Superblock 0 0 0 0) [] (by decide) rfl

/-- Emission loop of `AgExtentPhase::scan_file_extents` (`staged.rs`):
iterate the bmbt results in map-enumeration order, queue directory inodes
for the directory phase and emit a `FileExtentsInfo` per file inode; a
Break exits the loop after delivering the current event. -/
def scan_file_extents_emit (dir_inos : List Nat)
    (cb : Nat × List Extent → Bool) :
    BmbtResults → List (Nat × List Extent) × List DirWorkItem
  | [] => ([], [])
  | (ino, exts) :: rest =>
    if exts.isEmpty then scan_file_extents_emit dir_inos cb rest
    else if ino ∈ dir_inos then
      let r := scan_file_extents_emit dir_inos cb rest
      (r.1, { ino := ino, extents := exts } :: r.2)
    else if cb (ino, exts) then
      let r := scan_file_extents_emit dir_inos cb rest
      ((ino, exts) :: r.1, r.2)
    else ([(ino, exts)], [])

/-- Level-0 inline bmbt root fork: one extent record with block count 1. -/
def forkLeafA : Buf := [0, 0, 0, 1] ++ (List.replicate 15 0 ++ [1])

/-- Level-0 inline bmbt root fork: one extent record with block count 2. -/
def forkLeafB : Buf := [0, 0, 0, 1] ++ (List.replicate 15 0 ++ [2])

/-- Btree-format file input for inode 10. -/
def bmbtInA : BmbtDirInput := { ino := 10, fork_data := forkLeafA, data_fork_size := 20 }

/-- Btree-format file input for inode 20. -/
def bmbtInB : BmbtDirInput := { ino := 20, fork_data := forkLeafB, data_fork_size := 20 }

/-- C2: at the failing input (two btree-format files with inline leaf
roots), the bmbt walk produces the same result map under two enumeration
orders (a permutation), yet the `FileExtents` emission order differs; the
emitted sequence is therefore not a function of the image bytes, because
the source enumerates a `HashMap` whose iteration order is randomized per
process. -/
theorem file_extents_order_nondeterministic :
    collect_all_bmbt_extents [] ctxRealistic [bmbtInA, bmbtInB] id
        = .ok [(10, [⟨0, 0, 0, 1, false⟩]), (20, [⟨0, 0, 0, 2, false⟩])] ∧
      collect_all_bmbt_extents [] ctxRealistic [bmbtInA, bmbtInB] List.reverse
        = .ok [(20, [⟨0, 0, 0, 2, false⟩]), (10, [⟨0, 0, 0, 1, false⟩])] ∧
      List.Perm [((10 : Nat), [(⟨0, 0, 0, 1, false⟩ : Extent)]), (20, [⟨0, 0, 0, 2, false⟩])]
        [(20, [⟨0, 0, 0, 2, false⟩]), (10, [⟨0, 0, 0, 1, false⟩])] ∧
      (scan_file_extents_emit [] (fun _ => true)
          [(10, [⟨0, 0, 0, 1, false⟩]), (20, [⟨0, 0, 0, 2, false⟩])]).1
        ≠ (scan_file_extents_emit [] (fun _ => true)
            [(20, [⟨0, 0, 0, 2, false⟩]), (10, [⟨0, 0, 0, 1, false⟩])]).1 := by
  refine ⟨by decide, by decide, ?_, by decide⟩
  decide

/-- C8 (amended): the directory sweep builds (and issues) read requests
only from extents with a positive block count and the unwritten flag
clear: every request in the sorted request list of `phase2_dir_sweep`
stems from such an extent of some work item.  In particular no read
request is ever issued for an unwritten extent. -/
theorem dir_sweep_request_filter (ctx : FsContext)
    (dir_work : List DirWorkItem) :
    ∀ r ∈ (buildDirRequests ctx dir_work).mergeSort (fun a b => Nat.ble a.1 b.1),
      ∃ item, item ∈ dir_work ∧ ∃ ext, ext ∈ item.extents ∧
        0 < ext.block_count ∧ ext.is_unwritten = false ∧
        r = (ext.start_byte ctx,
          (ext.block_count <<< (ctx.block_log % 64)) % 2 ^ 64, item.ino) := by
  intro r hr
  rw [List.mem_mergeSort] at hr
  induction dir_work with
  | nil => simp [buildDirRequests] at hr
  | cons item rest ih =>
    rw [buildDirRequests] at hr
    rcases List.mem_append.mp hr with h1 | h2
    · rcases List.mem_map.mp h1 with ⟨ext, hextmem, hexteq⟩
      rcases List.mem_filter.mp hextmem with ⟨hextin, hcond⟩
      simp only [Bool.and_eq_true, decide_eq_true_eq, Bool.not_eq_true'] at hcond
      exact ⟨item, List.mem_cons_self _ _, ext, hextin, hcond.1, hcond.2,
        hexteq.symm⟩
    · obtain ⟨item', hitem', hrest⟩ := ih h2
      exact ⟨item', List.mem_cons_of_mem _ hitem', hrest⟩

/-- Work item with one readable extent, for the C8 witness. -/
def dwWitness : DirWorkItem :=
  { ino := 5, extents := [⟨0, 0, 3, 1, false⟩] }

/-- Witness for the amended claim C8 at a concrete work list and request. -/
theorem dir_sweep_request_filter_witness :
    ∃ item, item ∈ [dwWitness] ∧ ∃ ext, ext ∈ item.extents ∧
      0 < ext.block_count ∧ ext.is_unwritten = false ∧
      ((12288 : Nat), (4096 : Nat), (5 : Nat))
        = (ext.start_byte ctxRealistic,
          (ext.block_count <<< (ctxRealistic.block_log % 64)) % 2 ^ 64, item.ino) :=
  dir_sweep_request_filter ctxRealistic [dwWitness] (12288, 4096, 5)
    (by rw [List.mem_mergeSort]; decide)

/-- Inode-phase event of the staged API (`InodeInfo` in `staged.rs`),
carrying the optional inline extent map. -/
structure StagedInodeInfo where
  ag_number : Nat
  ino : Nat
  mode : Nat
  size : Nat
  uid : Nat
  gid : Nat
  nlink : Nat
  mtime_sec : Nat
  mtime_nsec : Nat
  atime_sec : Nat
  atime_nsec : Nat
  ctime_sec : Nat
  ctime_nsec : Nat
  nblocks : Nat
  extents : Option (List Extent)
deriving DecidableEq

/-- Accumulated output of one staged inode chunk
(`process_inode_chunk_staged` in `staged.rs`). -/
structure StagedChunkOut where
  events : List StagedInodeInfo
  dir_work : List DirWorkItem
  shortform_dirs : List (Nat × Buf)
  btree_dirs : List BtreeDirItem
  btree_files : List BtreeDirItem
  outcome : Except FxfspError Unit
deriving DecidableEq

/-- Handle one directory inode in the staged scan
(`handle_directory_staged`): LOCAL forks are stored for the directory
phase, EXTENTS forks queue directory work, BTREE forks queue a bmbt walk. -/
def handle_directory_staged (ctx : FsContext) (inode_buf : Buf)
    (info : InodeInfo) :
    Except FxfspError (List DirWorkItem × List (Nat × Buf) × List BtreeDirItem) :=
  if info.format = XFS_DINODE_FMT_LOCAL then
    let fork_start := info.data_fork_offset
    let fork_end := fork_start + info.size
    if fork_end > inode_buf.length then
      .error (.Parse "shortform dir fork out of bounds")
    else
      .ok ([], [(info.ino, (inode_buf.drop fork_start).take (fork_end - fork_start))], [])
  else if info.format = XFS_DINODE_FMT_EXTENTS then
    if info.data_fork_offset > inode_buf.length then .error .PanicOOB
    else
      match parse_extent_list (inode_buf.drop info.data_fork_offset) info.nextents ctx with
      | .error e => .error e
      | .ok extents => .ok ([{ ino := info.ino, extents := extents }], [], [])
  else if info.format = XFS_DINODE_FMT_BTREE then
    let fork_start := info.data_fork_offset
    let fork_end := min (fork_start + data_fork_size_model ctx info) inode_buf.length
    if fork_start > fork_end then .error .PanicOOB
    else
      .ok ([], [], [⟨info.ino,
        (inode_buf.drop fork_start).take (fork_end - fork_start),
        data_fork_size_model ctx info⟩])
  else .ok ([], [], [])

/-- Slot loop of `process_inode_chunk_staged`: like the plain scan's chunk
loop, but the event carries the inline extent map of regular
extents-format files mit `nextents > 0`, and btree-format regular files
are queued separately. -/
def stagedChunkSlots (ctx : FsContext) (chunk_buf : Buf) (recR : XfsInobtRec)
    (agno : Nat) (is_v5 : Bool) (cb : StagedInodeInfo → Bool) :
    Nat → Nat → StagedChunkOut
  | _, 0 => ⟨[], [], [], [], [], .ok ()⟩
  | i, n + 1 =>
    let group := i / 4
    let is_hole := recR.ir_holemask &&& (1 <<< group) ≠ 0
    if is_hole ∨ ¬ recR.is_allocated i then
      stagedChunkSlots ctx chunk_buf recR agno is_v5 cb (i + 1) n
    else
      let agino := (recR.start_ino + i) % 2 ^ 32
      let abs_ino := ctx.agino_to_ino agno agino
      let inode_offset := i * ctx.inode_size
      if inode_offset + ctx.inode_size > chunk_buf.length then ⟨[], [], [], [], [], .ok ()⟩
      else
        let inode_buf := chunk_buf.drop inode_offset
        match parse_inode_core inode_buf abs_ino is_v5 ctx.has_nrext64 with
        | .error e => ⟨[], [], [], [], [], .error e⟩
        | .ok info =>
          let extentsE : Except FxfspError (Option (List Extent)) :=
            if info.is_regular ∧ info.format = XFS_DINODE_FMT_EXTENTS ∧ 0 < info.nextents then
              if info.data_fork_offset > inode_buf.length then .error .PanicOOB
              else
                match parse_extent_list (inode_buf.drop info.data_fork_offset)
                    info.nextents ctx with
                | .error e => .error e
                | .ok exts => .ok (some exts)
            else .ok none
          match extentsE with
          | .error e => ⟨[], [], [], [], [], .error e⟩
          | .ok extents =>
            let ev : StagedInodeInfo :=
              { ag_number := agno, ino := info.ino, mode := info.mode,
                size := info.size, uid := info.uid, gid := info.gid,
                nlink := info.nlink, mtime_sec := info.mtime_sec,
                mtime_nsec := info.mtime_nsec, atime_sec := info.atime_sec,
                atime_nsec := info.atime_nsec, ctime_sec := info.ctime_sec,
                ctime_nsec := info.ctime_nsec, nblocks := info.nblocks,
                extents := extents }
            if ¬ cb ev then ⟨[ev], [], [], [], [], .error .Stopped⟩
            else
              let dirPart : Except FxfspError
                  (List DirWorkItem × List (Nat × Buf) × List BtreeDirItem × List BtreeDirItem) :=
                if info.is_dir then
                  match handle_directory_staged ctx inode_buf info with
                  | .error e => .error e
                  | .ok (dw, sf, bd) => .ok (dw, sf, bd, [])
                else if info.is_regular ∧ info.format = XFS_DINODE_FMT_BTREE then
                  let fork_start := info.data_fork_offset
                  let fork_end := min (fork_start + data_fork_size_model ctx info)
                    inode_buf.length
                  if fork_start > fork_end then .error .PanicOOB
                  else
                    .ok ([], [], [], [⟨info.ino,
                      (inode_buf.drop fork_start).take (fork_end - fork_start),
                      data_fork_size_model ctx info⟩])
                else .ok ([], [], [], [])
              match dirPart with
              | .error e => ⟨[ev], [], [], [], [], .error e⟩
              | .ok (dw, sf, bd, bf) =>
                let rest := stagedChunkSlots ctx chunk_buf recR agno is_v5 cb (i + 1) n
                ⟨ev :: rest.events, dw ++ rest.dir_work, sf ++ rest.shortform_dirs,
                  bd ++ rest.btree_dirs, bf ++ rest.btree_files, rest.outcome⟩

/-- Process one staged inode chunk (`process_inode_chunk_staged`). -/
def process_inode_chunk_staged (ctx : FsContext) (chunk_buf : Buf)
    (recR : XfsInobtRec) (agno : Nat) (is_v5 : Bool)
    (cb : StagedInodeInfo → Bool) : StagedChunkOut :=
  stagedChunkSlots ctx chunk_buf recR agno is_v5 cb 0 64

/-- Chunk buffer for the C8 counterexample: one allocated regular inode in
EXTENTS format with `nextents = 1` whose single on-disk extent record is
all zero, hence decodes with `block_count = 0`. -/
def chunkC8 : Buf :=
  [0x49, 0x4e, 0x80, 0x00, 0x00, 0x02] ++ List.replicate 70 0
    ++ [0, 0, 0, 1] ++ List.replicate 16 0 ++ List.replicate 160 0

/-- Inobt record for the C8 counterexample: only slot 0 allocated. -/
def recC8 : XfsInobtRec :=
  { ir_startino := 0, ir_holemask := 0, ir_count := 1, ir_freecount := 63,
    ir_free := 2 ^ 64 - 2 }

set_option maxRecDepth 8000 in
/-- C8 counterexample: the staged inode phase emits an `InodeFound`-class
event whose extent map carries an extent with `block_count = 0` — the
decoder does not filter zero-length extents out of emitted events. -/
theorem extent_zero_block_count_emitted :
    ∃ info, info ∈ (process_inode_chunk_staged ctxDegenerate chunkC8 recC8 0 false
        (fun _ => true)).events ∧
      ∃ exts, info.extents = some exts ∧
        ∃ e2, e2 ∈ exts ∧ ¬ 0 < e2.block_count := by
  refine ⟨⟨0, 0, 0x8000, 0, 0, 0, 0, 0, 0, 0, 0, 0, 0, 0,
    some [⟨0, 0, 0, 0, false⟩]⟩, ?_, [⟨0, 0, 0, 0, false⟩], rfl,
    ⟨0, 0, 0, 0, false⟩, by decide, by decide⟩
  decide

end Fxfsp
